import Mathlib

set_option maxHeartbeats 1600000

namespace RMDB

/-! Shallow embedding of the RMDB-2023 core subsystems: lock manager, log
manager, buffer-pool write-back, recovery analyze/undo, transaction abort,
the insert executor and the B+-tree insert path.  Every definition mirrors
the corresponding C++ function in `src/`. -/

/-- Record identifier `(page_no, slot_no)` from `defs.h`. -/
structure Rid where
  pageNo : Int
  slotNo : Int
deriving DecidableEq, Repr

/-! ## Lock manager (`transaction/concurrency/lock_manager.cpp`) -/

/-- Transaction lifecycle states (`txn_defs.h`). -/
inductive TransactionState
  | DEFAULT | GROWING | SHRINKING | COMMITTED | ABORTED
deriving DecidableEq, Repr

/-- Per-request lock modes (`LockMode` in the lock manager). -/
inductive LockMode
  | SHARED | EXCLUSIVE | INTENTION_SHARED | INTENTION_EXCLUSIVE | S_IX
deriving DecidableEq, Repr, Fintype

/-- Aggregate queue modes (`GroupLockMode`). -/
inductive GroupLockMode
  | NON_LOCK | IS | IX | S | SIX | X
deriving DecidableEq, Repr, Fintype

/-- Abort reasons raised by the lock manager (`AbortReason`); the code spells
the first one `LOCK_ON_SHIRINKING`. -/
inductive AbortReason
  | LOCK_ON_SHIRINKING | DEADLOCK_PREVENTION
deriving DecidableEq, Repr

/-- Lock identity: either a whole table or one record of a table
(`LockDataId` with `LockDataType::TABLE` / `RECORD`). -/
inductive LockDataId
  | table (fd : Int)
  | record (fd : Int) (rid : Rid)
deriving DecidableEq, Repr

/-- One queue entry (`LockRequest`): owning transaction, mode, granted flag. -/
structure LockRequest where
  txnId : Nat
  mode : LockMode
  granted : Bool
deriving DecidableEq, Repr

/-- Request queue with its aggregate metadata (`LockRequestQueue`):
`request_queue_`, `group_lock_mode_`, `shared_lock_num_`, `IX_lock_num_`. -/
structure LockRequestQueue where
  requestQueue : List LockRequest
  groupLockMode : GroupLockMode
  sharedLockNum : Int
  ixLockNum : Int
deriving DecidableEq, Repr

/-- A default-constructed queue, as `lock_table_.emplace` creates it. -/
def emptyQueue : LockRequestQueue :=
  { requestQueue := [], groupLockMode := .NON_LOCK, sharedLockNum := 0, ixLockNum := 0 }

/-- Lock-manager state: per-transaction state plus the lock table.  A
`LockDataId` absent from the C++ `lock_table_` behaves exactly like a
default-constructed empty queue, so the table is modelled as a total map. -/
structure LMState where
  txnState : Nat → TransactionState
  lockTable : LockDataId → LockRequestQueue

/-- Result of a lock-manager call: a returned boolean or a thrown
`TransactionAbortException`. -/
inductive LockResult
  | ok (b : Bool)
  | abortEx (r : AbortReason)
deriving DecidableEq, Repr

/-- The `std::find_if` over a request queue looking for the caller's entry. -/
def findReq (tid : Nat) (l : List LockRequest) : Option LockRequest :=
  l.find? (fun r => r.txnId == tid)

/-- Mutate the first request of transaction `tid` to mode `m`
(the in-place `pos->lock_mode_ = ...` writes). -/
def replaceFirst (tid : Nat) (m : LockMode) : List LockRequest → List LockRequest
  | [] => []
  | r :: t => if r.txnId = tid then { r with mode := m } :: t else r :: replaceFirst tid m t

/-- Remove the first request of transaction `tid` (`lockRequests.erase(pos)`). -/
def eraseFirst (tid : Nat) : List LockRequest → List LockRequest
  | [] => []
  | r :: t => if r.txnId = tid then t else r :: eraseFirst tid t

/-- The static `check_lock` helper: terminal transactions fail the call,
SHRINKING throws `LOCK_ON_SHIRINKING`, DEFAULT moves to GROWING.  Returns
the possibly-updated state and `some result` when the call ends here. -/
def checkLock (s : LMState) (tid : Nat) : LMState × Option LockResult :=
  match s.txnState tid with
  | .COMMITTED => (s, some (.ok false))
  | .ABORTED => (s, some (.ok false))
  | .SHRINKING => (s, some (.abortEx .LOCK_ON_SHIRINKING))
  | .DEFAULT => ({ s with txnState := Function.update s.txnState tid .GROWING }, none)
  | .GROWING => (s, none)

/-- Queue-level behaviour of `lock_shared_on_record` after `check_lock`. -/
def sharedOnRecordQ (tid : Nat) (q : LockRequestQueue) : LockRequestQueue × LockResult :=
  match findReq tid q.requestQueue with
  | some _ => (q, .ok true)
  | none =>
    if q.groupLockMode = .X ∨ q.groupLockMode = .IX ∨ q.groupLockMode = .SIX then
      (q, .abortEx .DEADLOCK_PREVENTION)
    else
      ({ requestQueue := q.requestQueue ++ [⟨tid, .SHARED, true⟩]
         groupLockMode := .S
         sharedLockNum := q.sharedLockNum + 1
         ixLockNum := q.ixLockNum }, .ok true)

/-- Queue-level behaviour of `lock_exclusive_on_record` after `check_lock`. -/
def exclusiveOnRecordQ (tid : Nat) (q : LockRequestQueue) : LockRequestQueue × LockResult :=
  match findReq tid q.requestQueue with
  | some req =>
    if req.mode = .EXCLUSIVE then (q, .ok true)
    else if (req.mode = .INTENTION_SHARED ∨ req.mode = .SHARED) ∧ q.requestQueue.length = 1 then
      ({ q with requestQueue := replaceFirst tid .EXCLUSIVE q.requestQueue
                groupLockMode := .X }, .ok true)
    else (q, .abortEx .DEADLOCK_PREVENTION)
  | none =>
    if q.groupLockMode ≠ .NON_LOCK then (q, .abortEx .DEADLOCK_PREVENTION)
    else
      ({ q with requestQueue := q.requestQueue ++ [⟨tid, .EXCLUSIVE, true⟩]
                groupLockMode := .X }, .ok true)

/-- Queue-level behaviour of `lock_shared_on_table` after `check_lock`.
Note: a fresh S grant and the IS→S upgrade do not touch `shared_lock_num_`,
exactly as in the source. -/
def sharedOnTableQ (tid : Nat) (q : LockRequestQueue) : LockRequestQueue × LockResult :=
  match findReq tid q.requestQueue with
  | some req =>
    if req.mode = .EXCLUSIVE ∨ req.mode = .S_IX ∨ req.mode = .SHARED then (q, .ok true)
    else if req.mode = .INTENTION_SHARED then
      if q.groupLockMode = .IS ∨ q.groupLockMode = .S then
        ({ q with requestQueue := replaceFirst tid .SHARED q.requestQueue
                  groupLockMode := .S }, .ok true)
      else (q, .abortEx .DEADLOCK_PREVENTION)
    else
      if q.requestQueue.countP (fun r => r.mode == .INTENTION_EXCLUSIVE) = 1 then
        ({ q with requestQueue := replaceFirst tid .S_IX q.requestQueue
                  groupLockMode := .SIX }, .ok true)
      else (q, .abortEx .DEADLOCK_PREVENTION)
  | none =>
    if q.groupLockMode = .NON_LOCK ∨ q.groupLockMode = .S ∨ q.groupLockMode = .IS then
      ({ q with requestQueue := q.requestQueue ++ [⟨tid, .SHARED, true⟩]
                groupLockMode := .S }, .ok true)
    else (q, .abortEx .DEADLOCK_PREVENTION)

/-- Queue-level behaviour of `lock_exclusive_on_table` after `check_lock`. -/
def exclusiveOnTableQ (tid : Nat) (q : LockRequestQueue) : LockRequestQueue × LockResult :=
  match findReq tid q.requestQueue with
  | some req =>
    if req.mode = .EXCLUSIVE then (q, .ok true)
    else if q.requestQueue.length = 1 then
      ({ q with requestQueue := replaceFirst tid .EXCLUSIVE q.requestQueue
                groupLockMode := .X }, .ok true)
    else (q, .abortEx .DEADLOCK_PREVENTION)
  | none =>
    if q.groupLockMode = .NON_LOCK then
      ({ q with requestQueue := q.requestQueue ++ [⟨tid, .EXCLUSIVE, true⟩]
                groupLockMode := .X }, .ok true)
    else (q, .abortEx .DEADLOCK_PREVENTION)

/-- Queue-level behaviour of `lock_IS_on_table` after `check_lock`. -/
def isOnTableQ (tid : Nat) (q : LockRequestQueue) : LockRequestQueue × LockResult :=
  match findReq tid q.requestQueue with
  | some _ => (q, .ok true)
  | none =>
    if q.groupLockMode = .X then (q, .abortEx .DEADLOCK_PREVENTION)
    else
      ({ q with requestQueue := q.requestQueue ++ [⟨tid, .INTENTION_SHARED, true⟩]
                groupLockMode :=
                  if q.groupLockMode = .NON_LOCK then .IS else q.groupLockMode }, .ok true)

/-- Queue-level behaviour of `lock_IX_on_table` after `check_lock`. -/
def ixOnTableQ (tid : Nat) (q : LockRequestQueue) : LockRequestQueue × LockResult :=
  match findReq tid q.requestQueue with
  | some req =>
    if req.mode = .INTENTION_EXCLUSIVE ∨ req.mode = .S_IX ∨ req.mode = .EXCLUSIVE then
      (q, .ok true)
    else if req.mode = .SHARED ∧ q.sharedLockNum = 1 then
      ({ q with requestQueue := replaceFirst tid .S_IX q.requestQueue
                groupLockMode := .SIX
                ixLockNum := q.ixLockNum + 1 }, .ok true)
    else if req.mode = .INTENTION_SHARED ∧
        (q.groupLockMode = .IS ∨ q.groupLockMode = .IX) then
      ({ q with requestQueue := replaceFirst tid .INTENTION_EXCLUSIVE q.requestQueue
                groupLockMode := .IX
                ixLockNum := q.ixLockNum + 1 }, .ok true)
    else (q, .abortEx .DEADLOCK_PREVENTION)
  | none =>
    if q.groupLockMode = .S ∨ q.groupLockMode = .SIX ∨ q.groupLockMode = .X then
      (q, .abortEx .DEADLOCK_PREVENTION)
    else
      ({ q with requestQueue := q.requestQueue ++ [⟨tid, .INTENTION_EXCLUSIVE, true⟩]
                groupLockMode := .IX
                ixLockNum := q.ixLockNum + 1 }, .ok true)

/-- The group-mode recomputation of `unlock`: count the remaining requests in
each mode, then pick X, else SIX, else IX, else S, else IS, else NON_LOCK. -/
def recomputeGroup (l : List LockRequest) : GroupLockMode :=
  let xNum := l.countP (fun r => r.mode == .EXCLUSIVE)
  let sixNum := l.countP (fun r => r.mode == .S_IX)
  let ixNum := l.countP (fun r => r.mode == .INTENTION_EXCLUSIVE)
  let sNum := l.countP (fun r => r.mode == .SHARED)
  let isNum := l.countP (fun r => r.mode == .INTENTION_SHARED)
  if 0 < xNum then .X
  else if 0 < sixNum then .SIX
  else if 0 < ixNum then .IX
  else if 0 < sNum then .S
  else if 0 < isNum then .IS
  else .NON_LOCK

/-- Queue-level behaviour of `unlock` once the transaction-state checks are
done: pop the caller's request, adjust the counters, recompute the group
mode (NON_LOCK if the queue became empty). -/
def unlockQ (tid : Nat) (q : LockRequestQueue) : LockRequestQueue × LockResult :=
  match findReq tid q.requestQueue with
  | none => (q, .ok true)
  | some req =>
    let shared1 := if req.mode = .SHARED ∨ req.mode = .S_IX then q.sharedLockNum - 1
      else q.sharedLockNum
    let ix1 := if req.mode = .INTENTION_EXCLUSIVE ∨ req.mode = .S_IX then q.ixLockNum - 1
      else q.ixLockNum
    let rest := eraseFirst tid q.requestQueue
    if rest = [] then
      ({ requestQueue := [], groupLockMode := .NON_LOCK,
         sharedLockNum := shared1, ixLockNum := ix1 }, .ok true)
    else
      ({ requestQueue := rest, groupLockMode := recomputeGroup rest,
         sharedLockNum := shared1, ixLockNum := ix1 }, .ok true)

/-- Wrap a queue transformation on one `LockDataId` into a state update. -/
def applyQ (s : LMState) (lid : LockDataId) (res : LockRequestQueue × LockResult) :
    LMState × LockResult :=
  ({ s with lockTable := Function.update s.lockTable lid res.1 }, res.2)

/-- `LockManager::lock_shared_on_record`. -/
def lockSharedOnRecord (s : LMState) (tid : Nat) (rid : Rid) (fd : Int) :
    LMState × LockResult :=
  match checkLock s tid with
  | (s1, some r) => (s1, r)
  | (s1, none) =>
    applyQ s1 (.record fd rid) (sharedOnRecordQ tid (s1.lockTable (.record fd rid)))

/-- `LockManager::lock_exclusive_on_record`. -/
def lockExclusiveOnRecord (s : LMState) (tid : Nat) (rid : Rid) (fd : Int) :
    LMState × LockResult :=
  match checkLock s tid with
  | (s1, some r) => (s1, r)
  | (s1, none) =>
    applyQ s1 (.record fd rid) (exclusiveOnRecordQ tid (s1.lockTable (.record fd rid)))

/-- `LockManager::lock_shared_on_table`. -/
def lockSharedOnTable (s : LMState) (tid : Nat) (fd : Int) : LMState × LockResult :=
  match checkLock s tid with
  | (s1, some r) => (s1, r)
  | (s1, none) => applyQ s1 (.table fd) (sharedOnTableQ tid (s1.lockTable (.table fd)))

/-- `LockManager::lock_exclusive_on_table`. -/
def lockExclusiveOnTable (s : LMState) (tid : Nat) (fd : Int) : LMState × LockResult :=
  match checkLock s tid with
  | (s1, some r) => (s1, r)
  | (s1, none) => applyQ s1 (.table fd) (exclusiveOnTableQ tid (s1.lockTable (.table fd)))

/-- `LockManager::lock_IS_on_table`. -/
def lockISOnTable (s : LMState) (tid : Nat) (fd : Int) : LMState × LockResult :=
  match checkLock s tid with
  | (s1, some r) => (s1, r)
  | (s1, none) => applyQ s1 (.table fd) (isOnTableQ tid (s1.lockTable (.table fd)))

/-- `LockManager::lock_IX_on_table`. -/
def lockIXOnTable (s : LMState) (tid : Nat) (fd : Int) : LMState × LockResult :=
  match checkLock s tid with
  | (s1, some r) => (s1, r)
  | (s1, none) => applyQ s1 (.table fd) (ixOnTableQ tid (s1.lockTable (.table fd)))

/-- `LockManager::unlock`: terminal transactions fail; a GROWING transaction
moves to SHRINKING before the queue is even looked up; an absent queue or an
absent request succeed silently. -/
def unlock (s : LMState) (tid : Nat) (lid : LockDataId) : LMState × LockResult :=
  match s.txnState tid with
  | .COMMITTED => (s, .ok false)
  | .ABORTED => (s, .ok false)
  | st =>
    let s1 := if st = .GROWING then
        { s with txnState := Function.update s.txnState tid .SHRINKING } else s
    applyQ s1 lid (unlockQ tid (s1.lockTable lid))

/-- One lock-manager call, used to form traces. -/
inductive LMOp
  | sharedOnRecord (tid : Nat) (rid : Rid) (fd : Int)
  | exclusiveOnRecord (tid : Nat) (rid : Rid) (fd : Int)
  | sharedOnTable (tid : Nat) (fd : Int)
  | exclusiveOnTable (tid : Nat) (fd : Int)
  | isOnTable (tid : Nat) (fd : Int)
  | ixOnTable (tid : Nat) (fd : Int)
  | unlockOp (tid : Nat) (lid : LockDataId)
deriving DecidableEq, Repr

/-- Execute one call against the state. -/
def applyOp (s : LMState) : LMOp → LMState × LockResult
  | .sharedOnRecord tid rid fd => lockSharedOnRecord s tid rid fd
  | .exclusiveOnRecord tid rid fd => lockExclusiveOnRecord s tid rid fd
  | .sharedOnTable tid fd => lockSharedOnTable s tid fd
  | .exclusiveOnTable tid fd => lockExclusiveOnTable s tid fd
  | .isOnTable tid fd => lockISOnTable s tid fd
  | .ixOnTable tid fd => lockIXOnTable s tid fd
  | .unlockOp tid lid => unlock s tid lid

/-- Run a list of calls, keeping only the state. -/
def runOps (s : LMState) (ops : List LMOp) : LMState :=
  ops.foldl (fun st op => (applyOp st op).1) s

/-- The pristine lock manager: every transaction DEFAULT, lock table empty. -/
def initLM : LMState :=
  { txnState := fun _ => .DEFAULT, lockTable := fun _ => emptyQueue }

/-- States reachable from the pristine lock manager through any calls. -/
inductive ReachLM : LMState → Prop
  | init : ReachLM initLM
  | step {s : LMState} (op : LMOp) : ReachLM s → ReachLM (applyOp s op).1

/-- Whether an op is a lock acquisition performed by transaction `tid`. -/
def isAcquireBy (tid : Nat) : LMOp → Bool
  | .sharedOnRecord t _ _ => t == tid
  | .exclusiveOnRecord t _ _ => t == tid
  | .sharedOnTable t _ => t == tid
  | .exclusiveOnTable t _ => t == tid
  | .isOnTable t _ => t == tid
  | .ixOnTable t _ => t == tid
  | .unlockOp _ _ => false


/-! ### The IS < IX < S < SIX < X lattice and the group-mode invariant -/

/-- The group mode that a single request mode contributes. -/
def modeGroup : LockMode → GroupLockMode
  | .SHARED => .S
  | .EXCLUSIVE => .X
  | .INTENTION_SHARED => .IS
  | .INTENTION_EXCLUSIVE => .IX
  | .S_IX => .SIX

/-- Rank of a group mode in the chain NON_LOCK < IS < IX < S < SIX < X. -/
def gNat : GroupLockMode → Nat
  | .NON_LOCK => 0
  | .IS => 1
  | .IX => 2
  | .S => 3
  | .SIX => 4
  | .X => 5

/-- Join (maximum) of two group modes in the chain. -/
def gjoin (a b : GroupLockMode) : GroupLockMode :=
  if gNat a ≤ gNat b then b else a

/-- Comparison in the chain. -/
def gle (a b : GroupLockMode) : Prop := gNat a ≤ gNat b

instance (a b : GroupLockMode) : Decidable (gle a b) := by
  unfold gle; infer_instance

/-- Join of the modes of all requests in a queue (NON_LOCK when empty). -/
def joinModes (l : List LockRequest) : GroupLockMode :=
  l.foldr (fun r g => gjoin (modeGroup r.mode) g) .NON_LOCK

/-- Compatibility matrix of granted lock modes (standard multigranularity
matrix): IS conflicts only with X; IX with S, SIX, X; S with IX, SIX, X;
SIX with everything but IS; X with everything. -/
def compatible : LockMode → LockMode → Prop
  | .INTENTION_SHARED, m => m ≠ .EXCLUSIVE
  | .INTENTION_EXCLUSIVE, m => m = .INTENTION_SHARED ∨ m = .INTENTION_EXCLUSIVE
  | .SHARED, m => m = .INTENTION_SHARED ∨ m = .SHARED
  | .S_IX, m => m = .INTENTION_SHARED
  | .EXCLUSIVE, _ => False

instance (a b : LockMode) : Decidable (compatible a b) := by
  cases a <;> simp only [compatible] <;> infer_instance

theorem compatible_symm : Symmetric compatible := by
  intro a b; cases a <;> cases b <;> decide

theorem gle_trans {a b c : GroupLockMode} (h1 : gle a b) (h2 : gle b c) : gle a c := by
  unfold gle at h1 h2 ⊢; omega

theorem gle_antisymm {a b : GroupLockMode} (h1 : gle a b) (h2 : gle b a) : a = b := by
  have h : ∀ x y : GroupLockMode, gle x y → gle y x → x = y := by decide
  exact h a b h1 h2

theorem gle_gjoin_left (a b : GroupLockMode) : gle a (gjoin a b) := by
  have h : ∀ x y : GroupLockMode, gle x (gjoin x y) := by decide
  exact h a b

theorem gle_gjoin_right (a b : GroupLockMode) : gle b (gjoin a b) := by
  have h : ∀ x y : GroupLockMode, gle y (gjoin x y) := by decide
  exact h a b

theorem gjoin_le {a b c : GroupLockMode} (h1 : gle a c) (h2 : gle b c) :
    gle (gjoin a b) c := by
  have h : ∀ x y z : GroupLockMode, gle x z → gle y z → gle (gjoin x y) z := by decide
  exact h a b c h1 h2

theorem gle_nonlock (a : GroupLockMode) : gle .NON_LOCK a := by
  have h : ∀ x : GroupLockMode, gle .NON_LOCK x := by decide
  exact h a

theorem modeGroup_ne_nonlock (m : LockMode) : modeGroup m ≠ .NON_LOCK := by
  cases m <;> simp [modeGroup]

/-- A member of the queue contributes at most the join. -/
theorem mem_gle_joinModes {r : LockRequest} {l : List LockRequest} (h : r ∈ l) :
    gle (modeGroup r.mode) (joinModes l) := by
  induction l with
  | nil => cases h
  | cons a t ih =>
    rcases List.mem_cons.1 h with rfl | hmem
    · exact gle_gjoin_left _ _
    · exact gle_trans (ih hmem) (gle_gjoin_right _ _)

/-- The join is bounded by any upper bound of the members. -/
theorem joinModes_le {l : List LockRequest} {g : GroupLockMode}
    (h : ∀ r ∈ l, gle (modeGroup r.mode) g) : gle (joinModes l) g := by
  induction l with
  | nil => exact gle_nonlock g
  | cons a t ih =>
    exact gjoin_le (h a (List.mem_cons_self a t)) (ih fun r hr => h r (List.mem_cons_of_mem a hr))

/-- The join of a nonempty queue is attained by one of its members. -/
theorem joinModes_attained {l : List LockRequest} (h : l ≠ []) :
    ∃ r ∈ l, modeGroup r.mode = joinModes l := by
  induction l with
  | nil => exact absurd rfl h
  | cons a t ih =>
    by_cases ht : t = []
    · subst ht
      refine ⟨a, List.mem_cons_self a _, ?_⟩
      show modeGroup a.mode = gjoin (modeGroup a.mode) .NON_LOCK
      have h : ∀ x : GroupLockMode, x ≠ .NON_LOCK → x = gjoin x .NON_LOCK := by decide
      exact h _ (modeGroup_ne_nonlock a.mode)
    · obtain ⟨r, hr, hrj⟩ := ih ht
      show ∃ x ∈ a :: t, modeGroup x.mode = gjoin (modeGroup a.mode) (joinModes t)
      by_cases hc : gNat (modeGroup a.mode) ≤ gNat (joinModes t)
      · refine ⟨r, List.mem_cons_of_mem a hr, ?_⟩
        rw [hrj]; unfold gjoin; rw [if_pos hc]
      · refine ⟨a, List.mem_cons_self a t, ?_⟩
        unfold gjoin; rw [if_neg hc]

/-- A queue whose join is NON_LOCK is empty. -/
theorem joinModes_eq_nonlock {l : List LockRequest} (h : joinModes l = .NON_LOCK) :
    l = [] := by
  cases l with
  | nil => rfl
  | cons a t =>
    obtain ⟨r, _, hrj⟩ := joinModes_attained (l := a :: t) (by simp)
    rw [h] at hrj
    exact absurd hrj (modeGroup_ne_nonlock r.mode)

/-- Join over an appended singleton. -/
theorem joinModes_append_one (l : List LockRequest) (r : LockRequest) :
    joinModes (l ++ [r]) = gjoin (joinModes l) (modeGroup r.mode) := by
  induction l with
  | nil =>
    show gjoin (modeGroup r.mode) .NON_LOCK = gjoin .NON_LOCK (modeGroup r.mode)
    have h : ∀ x : GroupLockMode, gjoin x .NON_LOCK = gjoin .NON_LOCK x := by decide
    exact h _
  | cons a t ih =>
    show gjoin (modeGroup a.mode) (joinModes (t ++ [r])) =
      gjoin (gjoin (modeGroup a.mode) (joinModes t)) (modeGroup r.mode)
    rw [ih]
    have h : ∀ x y z : GroupLockMode, gjoin x (gjoin y z) = gjoin (gjoin x y) z := by decide
    exact h _ _ _

/-- Characterise the join from bounds and attainment. -/
theorem joinModes_eq_of {l : List LockRequest} {g : GroupLockMode}
    (hub : ∀ r ∈ l, gle (modeGroup r.mode) g) (hat : ∃ r ∈ l, modeGroup r.mode = g) :
    joinModes l = g := by
  obtain ⟨r, hr, hrg⟩ := hat
  exact gle_antisymm (joinModes_le hub) (hrg ▸ mem_gle_joinModes hr)

/-- Pairwise compatibility of the granted requests in a queue. -/
def queueCompat (l : List LockRequest) : Prop :=
  l.Pairwise (fun a b => compatible a.mode b.mode)

/-- In a pairwise-compatible queue, an EXCLUSIVE holder is alone. -/
theorem queueCompat_x_alone {l : List LockRequest} {r : LockRequest}
    (hc : queueCompat l) (hr : r ∈ l) (hx : r.mode = .EXCLUSIVE) : l.length = 1 := by
  cases l with
  | nil => cases hr
  | cons a t =>
    cases t with
    | nil => rfl
    | cons b u =>
      exfalso
      have hall := List.Pairwise.forall (fun x y h => compatible_symm h) hc
      rcases List.mem_cons.1 hr with rfl | hrt
      · have hb : b ∈ r :: b :: u := List.mem_cons_of_mem r (List.mem_cons_self b u)
        have hrb : r ≠ b → compatible r.mode b.mode :=
          fun hne => hall (List.mem_cons_self r _) hb hne
        by_cases hne : r = b
        · subst hne
          have := List.Pairwise.forall (fun x y h => compatible_symm h) hc
            (List.mem_cons_self r _) hb
          rw [hx] at hrb
          have hcompat := hc
          rw [queueCompat, List.pairwise_cons] at hcompat
          have := hcompat.1 r (List.mem_cons_self r u)
          rw [hx] at this
          exact this
        · have := hrb hne; rw [hx] at this; exact this
      · have ha : a ∈ a :: b :: u := List.mem_cons_self a _
        by_cases hne : a = r
        · subst hne
          rw [queueCompat, List.pairwise_cons] at hc
          have := hc.1 _ hrt
          rw [hx] at this
          exact this
        · have := hall ha (List.mem_cons_of_mem a hrt) hne
          rw [hx] at this
          cases ha2 : a.mode <;> rw [ha2] at this <;> simp [compatible] at this

/-- `joinModes` of the empty queue. -/
theorem joinModes_nil : joinModes [] = .NON_LOCK := rfl

/-- `joinModes` of a singleton. -/
theorem joinModes_singleton (r : LockRequest) : joinModes [r] = modeGroup r.mode := by
  show gjoin (modeGroup r.mode) .NON_LOCK = modeGroup r.mode
  have h : ∀ x : GroupLockMode, x ≠ .NON_LOCK → gjoin x .NON_LOCK = x := by decide
  exact h _ (modeGroup_ne_nonlock r.mode)

/-- A successful `find_if` yields the caller's request, which is in the queue. -/
theorem findReq_some {tid : Nat} {l : List LockRequest} {req : LockRequest}
    (h : findReq tid l = some req) : req ∈ l ∧ req.txnId = tid := by
  refine ⟨List.mem_of_find?_eq_some h, ?_⟩
  have := List.find?_some h
  simpa using this

/-- Decomposition of `replaceFirst` around the found request. -/
theorem replaceFirst_decomp {tid : Nat} {l : List LockRequest} {req : LockRequest}
    (m : LockMode) (h : findReq tid l = some req) :
    ∃ l1 l2, l = l1 ++ req :: l2 ∧
      replaceFirst tid m l = l1 ++ { req with mode := m } :: l2 := by
  induction l with
  | nil => simp [findReq] at h
  | cons a t ih =>
    by_cases ha : a.txnId = tid
    · have hreq : req = a := by
        simp [findReq, List.find?_cons, ha] at h
        exact h.symm
      subst hreq
      exact ⟨[], t, rfl, by simp [replaceFirst, ha]⟩
    · have ht : findReq tid t = some req := by
        simpa [findReq, List.find?_cons, ha] using h
      obtain ⟨l1, l2, heq, hrep⟩ := ih ht
      exact ⟨a :: l1, l2, by simp [heq], by simp [replaceFirst, ha, hrep]⟩

/-- Decomposition of `eraseFirst` around the found request. -/
theorem eraseFirst_decomp {tid : Nat} {l : List LockRequest} {req : LockRequest}
    (h : findReq tid l = some req) :
    ∃ l1 l2, l = l1 ++ req :: l2 ∧ eraseFirst tid l = l1 ++ l2 := by
  induction l with
  | nil => simp [findReq] at h
  | cons a t ih =>
    by_cases ha : a.txnId = tid
    · have hreq : req = a := by
        simp [findReq, List.find?_cons, ha] at h
        exact h.symm
      subst hreq
      exact ⟨[], t, rfl, by simp [eraseFirst, ha]⟩
    · have ht : findReq tid t = some req := by
        simpa [findReq, List.find?_cons, ha] using h
      obtain ⟨l1, l2, heq, hrep⟩ := ih ht
      exact ⟨a :: l1, l2, by simp [heq], by simp [eraseFirst, ha, hrep]⟩

/-- When the join is IS, every granted mode is IS. -/
theorem modes_of_join_IS {l : List LockRequest} (hj : joinModes l = .IS) :
    ∀ r ∈ l, r.mode = .INTENTION_SHARED := by
  intro r hr
  have hb := mem_gle_joinModes hr
  rw [hj] at hb
  cases hm : r.mode <;> rw [hm] at hb <;> first | rfl | (exfalso; revert hb; decide)

/-- When the join is IX, every granted mode is IS or IX. -/
theorem modes_of_join_IX {l : List LockRequest} (hj : joinModes l = .IX) :
    ∀ r ∈ l, r.mode = .INTENTION_SHARED ∨ r.mode = .INTENTION_EXCLUSIVE := by
  intro r hr
  have hb := mem_gle_joinModes hr
  rw [hj] at hb
  cases hm : r.mode <;> rw [hm] at hb <;>
    first | (left; rfl) | (right; rfl) | (exfalso; revert hb; decide)

/-- When the join is S and the queue is pairwise compatible, every granted
mode is S or IS (an IX holder would conflict with the attained S holder). -/
theorem modes_of_join_S {l : List LockRequest} (hc : queueCompat l)
    (hj : joinModes l = .S) :
    ∀ r ∈ l, r.mode = .SHARED ∨ r.mode = .INTENTION_SHARED := by
  intro r hr
  have hb := mem_gle_joinModes hr
  rw [hj] at hb
  have hmode : r.mode = .SHARED ∨ r.mode = .INTENTION_SHARED ∨
      r.mode = .INTENTION_EXCLUSIVE := by
    cases hm : r.mode
    · left; rfl
    · rw [hm] at hb; exact absurd hb (by decide)
    · right; left; rfl
    · right; right; rfl
    · rw [hm] at hb; exact absurd hb (by decide)
  rcases hmode with h1 | h1 | h1
  · exact Or.inl h1
  · exact Or.inr h1
  · exfalso
    have hne : l ≠ [] := by
      intro hl; rw [hl] at hj; exact absurd hj (by decide)
    obtain ⟨s0, hs0, hs0j⟩ := joinModes_attained hne
    rw [hj] at hs0j
    have hs0m : s0.mode = .SHARED := by
      cases hm : s0.mode <;> rw [hm] at hs0j <;> first | rfl | (exfalso; revert hs0j; decide)
    obtain ⟨i, hi⟩ := List.get_of_mem hr
    obtain ⟨j, hj2⟩ := List.get_of_mem hs0
    have hij : i ≠ j := by
      intro hij; rw [hij] at hi; rw [hi] at hj2
      rw [hj2] at h1; rw [h1] at hs0m; cases hs0m
    have hpair := List.pairwise_iff_get.1 hc
    rcases Nat.lt_or_ge i.val j.val with hlt | hge
    · have := hpair i j hlt
      rw [hi, hj2, h1, hs0m] at this
      simp [compatible] at this
    · have hlt2 : j.val < i.val := by
        rcases Nat.lt_or_ge j.val i.val with h2 | h2
        · exact h2
        · exact absurd (Fin.ext (Nat.le_antisymm h2 hge)) hij
      have := hpair j i hlt2
      rw [hi, hj2, h1, hs0m] at this
      simp [compatible] at this

/-- When the join is not X, no granted mode is EXCLUSIVE. -/
theorem no_X_of_join_ne_X {l : List LockRequest} (hj : joinModes l ≠ .X) :
    ∀ r ∈ l, r.mode ≠ .EXCLUSIVE := by
  intro r hr hm
  have hb := mem_gle_joinModes hr
  rw [hm] at hb
  apply hj
  have h : ∀ g : GroupLockMode, gle (modeGroup .EXCLUSIVE) g → g = .X := by decide
  exact h _ hb

/-- Under pairwise compatibility, the count-and-chain recomputation of
`unlock` agrees with the join in the spec lattice. -/
theorem recomputeGroup_eq_joinModes {l : List LockRequest} (hc : queueCompat l) :
    recomputeGroup l = joinModes l := by
  have hcount : ∀ m : LockMode,
      (0 < l.countP (fun x => x.mode == m)) ↔ ∃ x ∈ l, x.mode = m := by
    intro m
    rw [List.countP_pos]
    constructor
    · rintro ⟨x, hx, hxm⟩; exact ⟨x, hx, by simpa using hxm⟩
    · rintro ⟨x, hx, hxm⟩; exact ⟨x, hx, by simpa using hxm⟩
  have hzero : ∀ m : LockMode, (∀ x ∈ l, x.mode ≠ m) →
      l.countP (fun x => x.mode == m) = 0 := by
    intro m hm
    by_contra hpos
    obtain ⟨x, hx, hxm⟩ := (hcount m).1 (Nat.pos_of_ne_zero hpos)
    exact hm x hx hxm
  have hno : ∀ m : LockMode, ¬ gle (modeGroup m) (joinModes l) →
      l.countP (fun x => x.mode == m) = 0 := by
    intro m hm
    apply hzero
    intro x hx hxm
    exact hm (hxm ▸ mem_gle_joinModes hx)
  cases hj : joinModes l with
  | NON_LOCK =>
    have hl := joinModes_eq_nonlock hj
    subst hl; rfl
  | X =>
    have hne : l ≠ [] := by rintro rfl; rw [joinModes_nil] at hj; cases hj
    obtain ⟨r, hr, hrj⟩ := joinModes_attained hne
    rw [hj] at hrj
    have hrm : r.mode = .EXCLUSIVE := by
      cases hm : r.mode <;> rw [hm] at hrj <;> first | rfl | (exfalso; revert hrj; decide)
    have hx : 0 < l.countP (fun x => x.mode == LockMode.EXCLUSIVE) :=
      (hcount _).2 ⟨r, hr, hrm⟩
    simp [recomputeGroup, hx]
  | SIX =>
    have hne : l ≠ [] := by rintro rfl; rw [joinModes_nil] at hj; cases hj
    obtain ⟨r, hr, hrj⟩ := joinModes_attained hne
    rw [hj] at hrj
    have hrm : r.mode = .S_IX := by
      cases hm : r.mode <;> rw [hm] at hrj <;> first | rfl | (exfalso; revert hrj; decide)
    have hx0 : l.countP (fun x => x.mode == LockMode.EXCLUSIVE) = 0 := by
      apply hno; rw [hj]; decide
    have hsix : 0 < l.countP (fun x => x.mode == LockMode.S_IX) :=
      (hcount _).2 ⟨r, hr, hrm⟩
    simp [recomputeGroup, hx0, hsix]
  | IX =>
    have hne : l ≠ [] := by rintro rfl; rw [joinModes_nil] at hj; cases hj
    obtain ⟨r, hr, hrj⟩ := joinModes_attained hne
    rw [hj] at hrj
    have hrm : r.mode = .INTENTION_EXCLUSIVE := by
      cases hm : r.mode <;> rw [hm] at hrj <;> first | rfl | (exfalso; revert hrj; decide)
    have hx0 : l.countP (fun x => x.mode == LockMode.EXCLUSIVE) = 0 := by
      apply hno; rw [hj]; decide
    have hsix0 : l.countP (fun x => x.mode == LockMode.S_IX) = 0 := by
      apply hno; rw [hj]; decide
    have hix : 0 < l.countP (fun x => x.mode == LockMode.INTENTION_EXCLUSIVE) :=
      (hcount _).2 ⟨r, hr, hrm⟩
    simp [recomputeGroup, hx0, hsix0, hix]
  | S =>
    have hmods := modes_of_join_S hc hj
    have hne : l ≠ [] := by rintro rfl; rw [joinModes_nil] at hj; cases hj
    obtain ⟨r, hr, hrj⟩ := joinModes_attained hne
    rw [hj] at hrj
    have hrm : r.mode = .SHARED := by
      cases hm : r.mode <;> rw [hm] at hrj <;> first | rfl | (exfalso; revert hrj; decide)
    have hx0 : l.countP (fun x => x.mode == LockMode.EXCLUSIVE) = 0 := by
      apply hzero; intro x hx hxm
      rcases hmods x hx with h1 | h1 <;> rw [h1] at hxm <;> cases hxm
    have hsix0 : l.countP (fun x => x.mode == LockMode.S_IX) = 0 := by
      apply hzero; intro x hx hxm
      rcases hmods x hx with h1 | h1 <;> rw [h1] at hxm <;> cases hxm
    have hix0 : l.countP (fun x => x.mode == LockMode.INTENTION_EXCLUSIVE) = 0 := by
      apply hzero; intro x hx hxm
      rcases hmods x hx with h1 | h1 <;> rw [h1] at hxm <;> cases hxm
    have hs : 0 < l.countP (fun x => x.mode == LockMode.SHARED) :=
      (hcount _).2 ⟨r, hr, hrm⟩
    simp [recomputeGroup, hx0, hsix0, hix0, hs]
  | IS =>
    have hne : l ≠ [] := by rintro rfl; rw [joinModes_nil] at hj; cases hj
    obtain ⟨r, hr, hrj⟩ := joinModes_attained hne
    rw [hj] at hrj
    have hrm : r.mode = .INTENTION_SHARED := by
      cases hm : r.mode <;> rw [hm] at hrj <;> first | rfl | (exfalso; revert hrj; decide)
    have hx0 : l.countP (fun x => x.mode == LockMode.EXCLUSIVE) = 0 := by
      apply hno; rw [hj]; decide
    have hsix0 : l.countP (fun x => x.mode == LockMode.S_IX) = 0 := by
      apply hno; rw [hj]; decide
    have hix0 : l.countP (fun x => x.mode == LockMode.INTENTION_EXCLUSIVE) = 0 := by
      apply hno; rw [hj]; decide
    have hs0 : l.countP (fun x => x.mode == LockMode.SHARED) = 0 := by
      apply hno; rw [hj]; decide
    have his : 0 < l.countP (fun x => x.mode == LockMode.INTENTION_SHARED) :=
      (hcount _).2 ⟨r, hr, hrm⟩
    simp [recomputeGroup, hx0, hsix0, hix0, hs0, his]

/-! ### Queue invariant: group mode is the join; granted modes are compatible -/

/-- Invariant of one request queue.  `isTable` marks queues keyed by a
table-granularity `LockDataId`; on those the `shared_lock_num_` counter never
exceeds zero because `lock_shared_on_table` does not increment it. -/
def QInv (isTable : Bool) (q : LockRequestQueue) : Prop :=
  q.groupLockMode = joinModes q.requestQueue ∧
  queueCompat q.requestQueue ∧
  (isTable = true → q.sharedLockNum ≤ 0)

/-- Appending a compatible request preserves pairwise compatibility. -/
theorem queueCompat_append_one {l : List LockRequest} {x : LockRequest}
    (hc : queueCompat l) (h : ∀ r ∈ l, compatible r.mode x.mode) :
    queueCompat (l ++ [x]) := by
  rw [queueCompat, List.pairwise_append]
  refine ⟨hc, List.pairwise_singleton _ _, ?_⟩
  intro a ha b hb
  rcases List.mem_singleton.1 hb with rfl
  exact h a ha

/-- Replacing the mode of the found request preserves pairwise compatibility
when the new mode is compatible with the rest of the queue. -/
theorem queueCompat_replace {l1 l2 : List LockRequest} {req : LockRequest} (m : LockMode)
    (hc : queueCompat (l1 ++ req :: l2))
    (h1 : ∀ r ∈ l1, compatible r.mode m)
    (h2 : ∀ r ∈ l2, compatible m r.mode) :
    queueCompat (l1 ++ { req with mode := m } :: l2) := by
  rw [queueCompat, List.pairwise_append] at hc ⊢
  obtain ⟨hca, hcb, hcc⟩ := hc
  rw [List.pairwise_cons] at hcb ⊢
  refine ⟨hca, ⟨fun b hb => h2 b hb, hcb.2⟩, ?_⟩
  intro a ha b hb
  rcases List.mem_cons.1 hb with rfl | hb2
  · exact h1 a ha
  · exact hcc a ha b (List.mem_cons_of_mem _ hb2)

/-- A member of a length-one list is the whole list. -/
theorem eq_singleton_of_mem_len1 {l : List LockRequest} {r : LockRequest}
    (hr : r ∈ l) (hl : l.length = 1) : l = [r] := by
  obtain ⟨a, rfl⟩ := List.length_eq_one.1 hl
  rcases List.mem_singleton.1 hr with rfl
  rfl

/-- `lock_shared_on_record` preserves the queue invariant (record queues). -/
theorem sharedOnRecordQ_inv {tid : Nat} {q : LockRequestQueue} (h : QInv false q) :
    QInv false (sharedOnRecordQ tid q).1 := by
  obtain ⟨hg, hc, -⟩ := h
  simp only [sharedOnRecordQ]
  cases hf : findReq tid q.requestQueue with
  | some req => exact ⟨hg, hc, by simp⟩
  | none =>
    split_ifs with hguard
    · exact ⟨hg, hc, by simp⟩
    · push_neg at hguard
      rw [hg] at hguard
      have hmods : ∀ r ∈ q.requestQueue,
          r.mode = .SHARED ∨ r.mode = .INTENTION_SHARED := by
        cases hjv : joinModes q.requestQueue with
        | NON_LOCK => intro r hr; rw [joinModes_eq_nonlock hjv] at hr; cases hr
        | IS => intro r hr; exact Or.inr (modes_of_join_IS hjv r hr)
        | S => exact modes_of_join_S hc hjv
        | IX => exact absurd hjv hguard.2.1
        | SIX => exact absurd hjv hguard.2.2
        | X => exact absurd hjv hguard.1
      refine ⟨?_, ?_, by simp⟩
      · show GroupLockMode.S = joinModes (q.requestQueue ++ [⟨tid, .SHARED, true⟩])
        rw [joinModes_append_one]
        cases hjv : joinModes q.requestQueue with
        | NON_LOCK => rfl
        | IS => rfl
        | S => rfl
        | IX => exact absurd hjv hguard.2.1
        | SIX => exact absurd hjv hguard.2.2
        | X => exact absurd hjv hguard.1
      · apply queueCompat_append_one hc
        intro r hr
        show compatible r.mode LockMode.SHARED
        rcases hmods r hr with h1 | h1 <;> rw [h1] <;> decide

/-- `lock_exclusive_on_record` preserves the queue invariant (record queues). -/
theorem exclusiveOnRecordQ_inv {tid : Nat} {q : LockRequestQueue} (h : QInv false q) :
    QInv false (exclusiveOnRecordQ tid q).1 := by
  obtain ⟨hg, hc, -⟩ := h
  simp only [exclusiveOnRecordQ]
  cases hf : findReq tid q.requestQueue with
  | some req =>
    obtain ⟨hmem, htid⟩ := findReq_some hf
    dsimp only
    split_ifs with h1 h2
    · exact ⟨hg, hc, by simp⟩
    · have hl : q.requestQueue = [req] := eq_singleton_of_mem_len1 hmem h2.2
      have hrep : replaceFirst tid .EXCLUSIVE q.requestQueue =
          [{ req with mode := .EXCLUSIVE }] := by
        rw [hl]; simp [replaceFirst, htid]
      refine ⟨?_, ?_, by simp⟩
      · show GroupLockMode.X = joinModes (replaceFirst tid .EXCLUSIVE q.requestQueue)
        rw [hrep, joinModes_singleton]
        rfl
      · show queueCompat (replaceFirst tid .EXCLUSIVE q.requestQueue)
        rw [hrep]
        exact List.pairwise_singleton _ _
    · exact ⟨hg, hc, by simp⟩
  | none =>
    dsimp only
    split_ifs with hguard
    · exact ⟨hg, hc, by simp⟩
    · rw [Ne, not_not] at hguard
      have hl : q.requestQueue = [] := joinModes_eq_nonlock (hg ▸ hguard)
      refine ⟨?_, ?_, by simp⟩
      · show GroupLockMode.X = joinModes (q.requestQueue ++ [⟨tid, .EXCLUSIVE, true⟩])
        rw [hl]
        rfl
      · show queueCompat (q.requestQueue ++ [⟨tid, .EXCLUSIVE, true⟩])
        rw [hl]
        exact List.pairwise_singleton _ _

/-- `lock_exclusive_on_table` preserves the queue invariant (table queues). -/
theorem exclusiveOnTableQ_inv {tid : Nat} {q : LockRequestQueue} (h : QInv true q) :
    QInv true (exclusiveOnTableQ tid q).1 := by
  obtain ⟨hg, hc, hs⟩ := h
  simp only [exclusiveOnTableQ]
  cases hf : findReq tid q.requestQueue with
  | some req =>
    obtain ⟨hmem, htid⟩ := findReq_some hf
    dsimp only
    split_ifs with h1 h2
    · exact ⟨hg, hc, hs⟩
    · have hl : q.requestQueue = [req] := eq_singleton_of_mem_len1 hmem h2
      have hrep : replaceFirst tid .EXCLUSIVE q.requestQueue =
          [{ req with mode := .EXCLUSIVE }] := by
        rw [hl]; simp [replaceFirst, htid]
      refine ⟨?_, ?_, hs⟩
      · show GroupLockMode.X = joinModes (replaceFirst tid .EXCLUSIVE q.requestQueue)
        rw [hrep, joinModes_singleton]
        rfl
      · show queueCompat (replaceFirst tid .EXCLUSIVE q.requestQueue)
        rw [hrep]
        exact List.pairwise_singleton _ _
    · exact ⟨hg, hc, hs⟩
  | none =>
    dsimp only
    split_ifs with hguard
    · have hl : q.requestQueue = [] := joinModes_eq_nonlock (hg ▸ hguard)
      refine ⟨?_, ?_, hs⟩
      · show GroupLockMode.X = joinModes (q.requestQueue ++ [⟨tid, .EXCLUSIVE, true⟩])
        rw [hl]
        rfl
      · show queueCompat (q.requestQueue ++ [⟨tid, .EXCLUSIVE, true⟩])
        rw [hl]
        exact List.pairwise_singleton _ _
    · exact ⟨hg, hc, hs⟩

/-- `lock_IS_on_table` preserves the queue invariant (table queues). -/
theorem isOnTableQ_inv {tid : Nat} {q : LockRequestQueue} (h : QInv true q) :
    QInv true (isOnTableQ tid q).1 := by
  obtain ⟨hg, hc, hs⟩ := h
  simp only [isOnTableQ]
  cases hf : findReq tid q.requestQueue with
  | some req => exact ⟨hg, hc, hs⟩
  | none =>
    dsimp only
    split_ifs with hguard hnon
    · exact ⟨hg, hc, hs⟩
    · rw [hg] at hguard
      have hl : q.requestQueue = [] := joinModes_eq_nonlock (hg ▸ hnon)
      refine ⟨?_, ?_, hs⟩
      · show GroupLockMode.IS =
          joinModes (q.requestQueue ++ [⟨tid, .INTENTION_SHARED, true⟩])
        rw [hl]
        rfl
      · show queueCompat (q.requestQueue ++ [⟨tid, .INTENTION_SHARED, true⟩])
        rw [hl]
        exact List.pairwise_singleton _ _
    · rw [hg] at hguard hnon
      refine ⟨?_, ?_, hs⟩
      · show q.groupLockMode =
          joinModes (q.requestQueue ++ [⟨tid, .INTENTION_SHARED, true⟩])
        rw [joinModes_append_one, hg]
        cases hjv : joinModes q.requestQueue with
        | NON_LOCK => exact absurd hjv hnon
        | IS => rfl
        | IX => rfl
        | S => rfl
        | SIX => rfl
        | X => exact absurd hjv hguard
      · apply queueCompat_append_one hc
        intro r hr
        show compatible r.mode LockMode.INTENTION_SHARED
        have hnx := no_X_of_join_ne_X hguard r hr
        cases hm : r.mode
        · decide
        · exact absurd hm hnx
        · decide
        · decide
        · decide

/-- `lock_shared_on_table` preserves the queue invariant (table queues). -/
theorem sharedOnTableQ_inv {tid : Nat} {q : LockRequestQueue} (h : QInv true q) :
    QInv true (sharedOnTableQ tid q).1 := by
  obtain ⟨hg, hc, hs⟩ := h
  simp only [sharedOnTableQ]
  cases hf : findReq tid q.requestQueue with
  | some req =>
    obtain ⟨hmem, htid⟩ := findReq_some hf
    dsimp only
    split_ifs with h1 h2 h3 h4
    · exact ⟨hg, hc, hs⟩
    · -- IS → S upgrade, allowed when the group is IS or S
      obtain ⟨l1, l2, hl, hrep⟩ := replaceFirst_decomp .SHARED hf
      have hmods : ∀ r ∈ q.requestQueue, r.mode = .SHARED ∨ r.mode = .INTENTION_SHARED := by
        rcases h3 with h3 | h3 <;> rw [hg] at h3
        · intro r hr; exact Or.inr (modes_of_join_IS h3 r hr)
        · exact modes_of_join_S hc h3
      refine ⟨?_, ?_, hs⟩
      · show GroupLockMode.S = joinModes (replaceFirst tid .SHARED q.requestQueue)
        rw [hrep]
        symm
        apply joinModes_eq_of
        · intro r hr
          rcases List.mem_append.1 hr with hr1 | hr2
          · have : r ∈ q.requestQueue := hl ▸ List.mem_append_left _ hr1
            show gle (modeGroup r.mode) GroupLockMode.S
            rcases hmods r this with hm | hm <;> rw [hm] <;> decide
          · rcases List.mem_cons.1 hr2 with rfl | hr3
            · show gle (modeGroup LockMode.SHARED) GroupLockMode.S
              decide
            · have : r ∈ q.requestQueue := hl ▸ List.mem_append_right _
                (List.mem_cons_of_mem _ hr3)
              show gle (modeGroup r.mode) GroupLockMode.S
              rcases hmods r this with hm | hm <;> rw [hm] <;> decide
        · exact ⟨_, List.mem_append_right _ (List.mem_cons_self _ _), rfl⟩
      · show queueCompat (replaceFirst tid .SHARED q.requestQueue)
        rw [hrep]
        rw [hl] at hc
        apply queueCompat_replace _ hc
        · intro r hr
          show compatible r.mode LockMode.SHARED
          have : r ∈ q.requestQueue := hl ▸ List.mem_append_left _ hr
          rcases hmods r this with hm | hm <;> rw [hm] <;> decide
        · intro r hr
          show compatible LockMode.SHARED r.mode
          have : r ∈ q.requestQueue := hl ▸ List.mem_append_right _
            (List.mem_cons_of_mem _ hr)
          rcases hmods r this with hm | hm <;> rw [hm] <;> decide
    · exact ⟨hg, hc, hs⟩
    · -- IX → SIX upgrade, allowed when this is the only IX request
      have hmodeIX : req.mode = .INTENTION_EXCLUSIVE := by
        cases hm : req.mode
        · exact absurd (Or.inr (Or.inr hm)) h1
        · exact absurd (Or.inl hm) h1
        · exact absurd hm h2
        · rfl
        · exact absurd (Or.inr (Or.inl hm)) h1
      obtain ⟨l1, l2, hl, hrep⟩ := replaceFirst_decomp .S_IX hf
      have hcount := h4
      rw [hl, List.countP_append, List.countP_cons] at hcount
      have hreqIX : (req.mode == LockMode.INTENTION_EXCLUSIVE) = true := by
        rw [hmodeIX]; rfl
      rw [hreqIX] at hcount
      simp at hcount
      have hl10 : l1.countP (fun r => r.mode == .INTENTION_EXCLUSIVE) = 0 := by omega
      have hl20 : l2.countP (fun r => r.mode == .INTENTION_EXCLUSIVE) = 0 := by omega
      have hnoIX1 : ∀ r ∈ l1, r.mode ≠ .INTENTION_EXCLUSIVE := by
        intro r hr hm
        have : 0 < l1.countP (fun r => r.mode == .INTENTION_EXCLUSIVE) :=
          List.countP_pos.2 ⟨r, hr, by rw [hm]; rfl⟩
        omega
      have hnoIX2 : ∀ r ∈ l2, r.mode ≠ .INTENTION_EXCLUSIVE := by
        intro r hr hm
        have : 0 < l2.countP (fun r => r.mode == .INTENTION_EXCLUSIVE) :=
          List.countP_pos.2 ⟨r, hr, by rw [hm]; rfl⟩
        omega
      rw [hl] at hc
      rw [queueCompat, List.pairwise_append] at hc
      obtain ⟨hc1, hc2, hc3⟩ := hc
      rw [List.pairwise_cons] at hc2
      have hmods1 : ∀ r ∈ l1, r.mode = .INTENTION_SHARED := by
        intro r hr
        have hcompat := hc3 r hr req (List.mem_cons_self _ _)
        rw [hmodeIX] at hcompat
        cases hm : r.mode with
        | SHARED => rw [hm] at hcompat; simp [compatible] at hcompat
        | EXCLUSIVE => rw [hm] at hcompat; simp [compatible] at hcompat
        | INTENTION_SHARED => rfl
        | INTENTION_EXCLUSIVE => exact absurd hm (hnoIX1 r hr)
        | S_IX => rw [hm] at hcompat; simp [compatible] at hcompat
      have hmods2 : ∀ r ∈ l2, r.mode = .INTENTION_SHARED := by
        intro r hr
        have hcompat := hc2.1 r hr
        rw [hmodeIX] at hcompat
        cases hm : r.mode with
        | SHARED => rw [hm] at hcompat; simp [compatible] at hcompat
        | EXCLUSIVE => rw [hm] at hcompat; simp [compatible] at hcompat
        | INTENTION_SHARED => rfl
        | INTENTION_EXCLUSIVE => exact absurd hm (hnoIX2 r hr)
        | S_IX => rw [hm] at hcompat; simp [compatible] at hcompat
      refine ⟨?_, ?_, hs⟩
      · show GroupLockMode.SIX = joinModes (replaceFirst tid .S_IX q.requestQueue)
        rw [hrep]
        symm
        apply joinModes_eq_of
        · intro r hr
          rcases List.mem_append.1 hr with hr1 | hr2
          · show gle (modeGroup r.mode) GroupLockMode.SIX
            rw [hmods1 r hr1]; decide
          · rcases List.mem_cons.1 hr2 with rfl | hr3
            · show gle (modeGroup LockMode.S_IX) GroupLockMode.SIX
              decide
            · show gle (modeGroup r.mode) GroupLockMode.SIX
              rw [hmods2 r hr3]; decide
        · exact ⟨_, List.mem_append_right _ (List.mem_cons_self _ _), rfl⟩
      · show queueCompat (replaceFirst tid .S_IX q.requestQueue)
        rw [hrep]
        apply queueCompat_replace _ (by
          rw [queueCompat, List.pairwise_append]
          exact ⟨hc1, List.pairwise_cons.2 hc2, hc3⟩)
        · intro r hr
          show compatible r.mode LockMode.S_IX
          rw [hmods1 r hr]; decide
        · intro r hr
          show compatible LockMode.S_IX r.mode
          rw [hmods2 r hr]; decide
    · exact ⟨hg, hc, hs⟩
  | none =>
    dsimp only
    split_ifs with hguard
    · rw [hg] at hguard
      have hmods : ∀ r ∈ q.requestQueue, r.mode = .SHARED ∨ r.mode = .INTENTION_SHARED := by
        rcases hguard with h3 | h3 | h3
        · intro r hr; rw [joinModes_eq_nonlock h3] at hr; cases hr
        · exact modes_of_join_S hc h3
        · intro r hr; exact Or.inr (modes_of_join_IS h3 r hr)
      refine ⟨?_, ?_, hs⟩
      · show GroupLockMode.S = joinModes (q.requestQueue ++ [⟨tid, .SHARED, true⟩])
        rw [joinModes_append_one]
        rcases hguard with h3 | h3 | h3 <;> rw [h3] <;> rfl
      · apply queueCompat_append_one hc
        intro r hr
        show compatible r.mode LockMode.SHARED
        rcases hmods r hr with hm | hm <;> rw [hm] <;> decide
    · exact ⟨hg, hc, hs⟩

/-- `lock_IX_on_table` preserves the queue invariant (table queues). -/
theorem ixOnTableQ_inv {tid : Nat} {q : LockRequestQueue} (h : QInv true q) :
    QInv true (ixOnTableQ tid q).1 := by
  obtain ⟨hg, hc, hs⟩ := h
  simp only [ixOnTableQ]
  cases hf : findReq tid q.requestQueue with
  | some req =>
    obtain ⟨hmem, htid⟩ := findReq_some hf
    dsimp only
    split_ifs with h1 h2 h3
    · exact ⟨hg, hc, hs⟩
    · exact absurd h2.2 (by have := hs rfl; omega)
    · -- IS → IX upgrade, allowed when the group is IS or IX
      obtain ⟨l1, l2, hl, hrep⟩ := replaceFirst_decomp .INTENTION_EXCLUSIVE hf
      have hmods : ∀ r ∈ q.requestQueue,
          r.mode = .INTENTION_SHARED ∨ r.mode = .INTENTION_EXCLUSIVE := by
        rcases h3.2 with h4 | h4 <;> rw [hg] at h4
        · intro r hr; exact Or.inl (modes_of_join_IS h4 r hr)
        · exact modes_of_join_IX h4
      refine ⟨?_, ?_, hs⟩
      · show GroupLockMode.IX =
          joinModes (replaceFirst tid .INTENTION_EXCLUSIVE q.requestQueue)
        rw [hrep]
        symm
        apply joinModes_eq_of
        · intro r hr
          rcases List.mem_append.1 hr with hr1 | hr2
          · have : r ∈ q.requestQueue := hl ▸ List.mem_append_left _ hr1
            show gle (modeGroup r.mode) GroupLockMode.IX
            rcases hmods r this with hm | hm <;> rw [hm] <;> decide
          · rcases List.mem_cons.1 hr2 with rfl | hr3
            · show gle (modeGroup LockMode.INTENTION_EXCLUSIVE) GroupLockMode.IX
              decide
            · have : r ∈ q.requestQueue := hl ▸ List.mem_append_right _
                (List.mem_cons_of_mem _ hr3)
              show gle (modeGroup r.mode) GroupLockMode.IX
              rcases hmods r this with hm | hm <;> rw [hm] <;> decide
        · exact ⟨_, List.mem_append_right _ (List.mem_cons_self _ _), rfl⟩
      · show queueCompat (replaceFirst tid .INTENTION_EXCLUSIVE q.requestQueue)
        rw [hrep]
        rw [hl] at hc
        apply queueCompat_replace _ hc
        · intro r hr
          show compatible r.mode LockMode.INTENTION_EXCLUSIVE
          have : r ∈ q.requestQueue := hl ▸ List.mem_append_left _ hr
          rcases hmods r this with hm | hm <;> rw [hm] <;> decide
        · intro r hr
          show compatible LockMode.INTENTION_EXCLUSIVE r.mode
          have : r ∈ q.requestQueue := hl ▸ List.mem_append_right _
            (List.mem_cons_of_mem _ hr)
          rcases hmods r this with hm | hm <;> rw [hm] <;> decide
    · exact ⟨hg, hc, hs⟩
  | none =>
    dsimp only
    split_ifs with hguard
    · exact ⟨hg, hc, hs⟩
    · push_neg at hguard
      rw [hg] at hguard
      have hmods : ∀ r ∈ q.requestQueue,
          r.mode = .INTENTION_SHARED ∨ r.mode = .INTENTION_EXCLUSIVE := by
        cases hjv : joinModes q.requestQueue with
        | NON_LOCK => intro r hr; rw [joinModes_eq_nonlock hjv] at hr; cases hr
        | IS => intro r hr; exact Or.inl (modes_of_join_IS hjv r hr)
        | IX => exact modes_of_join_IX hjv
        | S => exact absurd hjv hguard.1
        | SIX => exact absurd hjv hguard.2.1
        | X => exact absurd hjv hguard.2.2
      refine ⟨?_, ?_, hs⟩
      · show GroupLockMode.IX =
          joinModes (q.requestQueue ++ [⟨tid, .INTENTION_EXCLUSIVE, true⟩])
        rw [joinModes_append_one]
        cases hjv : joinModes q.requestQueue with
        | NON_LOCK => rfl
        | IS => rfl
        | IX => rfl
        | S => exact absurd hjv hguard.1
        | SIX => exact absurd hjv hguard.2.1
        | X => exact absurd hjv hguard.2.2
      · apply queueCompat_append_one hc
        intro r hr
        show compatible r.mode LockMode.INTENTION_EXCLUSIVE
        rcases hmods r hr with hm | hm <;> rw [hm] <;> decide

/-- `unlock` preserves the queue invariant (either granularity). -/
theorem unlockQ_inv {b : Bool} {tid : Nat} {q : LockRequestQueue} (h : QInv b q) :
    QInv b (unlockQ tid q).1 := by
  obtain ⟨hg, hc, hs⟩ := h
  simp only [unlockQ]
  cases hf : findReq tid q.requestQueue with
  | none => exact ⟨hg, hc, hs⟩
  | some req =>
    obtain ⟨l1, l2, hl, he⟩ := eraseFirst_decomp hf
    have hcrest : queueCompat (l1 ++ l2) := by
      rw [hl, queueCompat, List.pairwise_append] at hc
      obtain ⟨hc1, hc2, hc3⟩ := hc
      rw [List.pairwise_cons] at hc2
      rw [queueCompat, List.pairwise_append]
      exact ⟨hc1, hc2.2, fun a ha b hb => hc3 a ha b (List.mem_cons_of_mem _ hb)⟩
    dsimp only
    by_cases hrest : eraseFirst tid q.requestQueue = []
    · rw [if_pos hrest]
      refine ⟨rfl, List.Pairwise.nil, ?_⟩
      intro hb
      have := hs hb
      dsimp only
      split_ifs <;> omega
    · rw [if_neg hrest]
      refine ⟨?_, ?_, ?_⟩
      · show recomputeGroup (eraseFirst tid q.requestQueue) =
          joinModes (eraseFirst tid q.requestQueue)
        rw [he]
        exact recomputeGroup_eq_joinModes hcrest
      · show queueCompat (eraseFirst tid q.requestQueue)
        rw [he]
        exact hcrest
      · intro hb
        have := hs hb
        dsimp only
        split_ifs <;> omega

/-! ### State-level invariant and reachability -/

/-- Whether a `LockDataId` names a table. -/
def isTableLid : LockDataId → Bool
  | .table _ => true
  | .record _ _ => false

/-- The lock-manager invariant: every queue satisfies `QInv`. -/
def LMInv (s : LMState) : Prop := ∀ lid, QInv (isTableLid lid) (s.lockTable lid)

/-- `check_lock` never touches the lock table. -/
theorem checkLock_lockTable (s : LMState) (tid : Nat) :
    (checkLock s tid).1.lockTable = s.lockTable := by
  unfold checkLock
  cases s.txnState tid <;> rfl

/-- A failed `find_if` means no request of the transaction is queued. -/
theorem findReq_none {tid : Nat} {l : List LockRequest} (h : findReq tid l = none) :
    ∀ r ∈ l, r.txnId ≠ tid := by
  intro r hr
  have := List.find?_eq_none.1 h r hr
  simpa using this

/-- Updating one queue with an invariant-preserving value keeps `LMInv`. -/
theorem LMInv_update {s : LMState} (h : LMInv s) {lid : LockDataId}
    {q : LockRequestQueue} (hq : QInv (isTableLid lid) q) :
    LMInv { s with lockTable := Function.update s.lockTable lid q } := by
  intro lid2
  show QInv (isTableLid lid2) (Function.update s.lockTable lid q lid2)
  rw [Function.update_apply]
  split_ifs with he
  · subst he; exact hq
  · exact h lid2

/-- Every lock-manager call preserves the invariant. -/
theorem LMInv_step (s : LMState) (op : LMOp) (h : LMInv s) : LMInv (applyOp s op).1 := by
  have hck : ∀ tid, LMInv (checkLock s tid).1 := by
    intro tid lid
    rw [checkLock_lockTable]
    exact h lid
  cases op with
  | sharedOnRecord tid rid fd =>
    show LMInv (lockSharedOnRecord s tid rid fd).1
    unfold lockSharedOnRecord
    rcases hcke : checkLock s tid with ⟨s1, ro⟩
    have h1 : LMInv s1 := by have := hck tid; rw [hcke] at this; exact this
    cases ro with
    | some r => exact h1
    | none => exact LMInv_update h1 (sharedOnRecordQ_inv (h1 (.record fd rid)))
  | exclusiveOnRecord tid rid fd =>
    show LMInv (lockExclusiveOnRecord s tid rid fd).1
    unfold lockExclusiveOnRecord
    rcases hcke : checkLock s tid with ⟨s1, ro⟩
    have h1 : LMInv s1 := by have := hck tid; rw [hcke] at this; exact this
    cases ro with
    | some r => exact h1
    | none => exact LMInv_update h1 (exclusiveOnRecordQ_inv (h1 (.record fd rid)))
  | sharedOnTable tid fd =>
    show LMInv (lockSharedOnTable s tid fd).1
    unfold lockSharedOnTable
    rcases hcke : checkLock s tid with ⟨s1, ro⟩
    have h1 : LMInv s1 := by have := hck tid; rw [hcke] at this; exact this
    cases ro with
    | some r => exact h1
    | none => exact LMInv_update h1 (sharedOnTableQ_inv (h1 (.table fd)))
  | exclusiveOnTable tid fd =>
    show LMInv (lockExclusiveOnTable s tid fd).1
    unfold lockExclusiveOnTable
    rcases hcke : checkLock s tid with ⟨s1, ro⟩
    have h1 : LMInv s1 := by have := hck tid; rw [hcke] at this; exact this
    cases ro with
    | some r => exact h1
    | none => exact LMInv_update h1 (exclusiveOnTableQ_inv (h1 (.table fd)))
  | isOnTable tid fd =>
    show LMInv (lockISOnTable s tid fd).1
    unfold lockISOnTable
    rcases hcke : checkLock s tid with ⟨s1, ro⟩
    have h1 : LMInv s1 := by have := hck tid; rw [hcke] at this; exact this
    cases ro with
    | some r => exact h1
    | none => exact LMInv_update h1 (isOnTableQ_inv (h1 (.table fd)))
  | ixOnTable tid fd =>
    show LMInv (lockIXOnTable s tid fd).1
    unfold lockIXOnTable
    rcases hcke : checkLock s tid with ⟨s1, ro⟩
    have h1 : LMInv s1 := by have := hck tid; rw [hcke] at this; exact this
    cases ro with
    | some r => exact h1
    | none => exact LMInv_update h1 (ixOnTableQ_inv (h1 (.table fd)))
  | unlockOp tid lid =>
    show LMInv (unlock s tid lid).1
    unfold unlock
    cases hst : s.txnState tid with
    | COMMITTED => exact h
    | ABORTED => exact h
    | DEFAULT =>
      dsimp only
      rw [if_neg (by decide : ¬ TransactionState.DEFAULT = .GROWING)]
      exact LMInv_update h (unlockQ_inv (h lid))
    | GROWING =>
      dsimp only
      rw [if_pos rfl]
      have h1 : LMInv { s with txnState := Function.update s.txnState tid .SHRINKING } :=
        fun lid2 => h lid2
      exact LMInv_update h1 (unlockQ_inv (h1 lid))
    | SHRINKING =>
      dsimp only
      rw [if_neg (by decide : ¬ TransactionState.SHRINKING = .GROWING)]
      exact LMInv_update h (unlockQ_inv (h lid))

/-- Every reachable lock-manager state satisfies the invariant. -/
theorem ReachLM_inv {s : LMState} (h : ReachLM s) : LMInv s := by
  induction h with
  | init =>
    intro lid
    exact ⟨rfl, List.Pairwise.nil, fun _ => le_refl 0⟩
  | step op hr ih => exact LMInv_step _ op ih

/-! ### Two-phase-locking lemmas for C6 -/

/-- `check_lock` can only change the calling transaction away from DEFAULT,
so a SHRINKING transaction stays SHRINKING. -/
theorem checkLock_shrinking {s : LMState} {tid tid2 : Nat}
    (h : s.txnState tid = .SHRINKING) :
    (checkLock s tid2).1.txnState tid = .SHRINKING := by
  unfold checkLock
  cases hst : s.txnState tid2 with
  | COMMITTED => exact h
  | ABORTED => exact h
  | SHRINKING => exact h
  | GROWING => exact h
  | DEFAULT =>
    show Function.update s.txnState tid2 .GROWING tid = .SHRINKING
    rw [Function.update_apply]
    split_ifs with he
    · subst he; rw [h] at hst; cases hst
    · exact h

/-- Every lock-manager call leaves a SHRINKING transaction SHRINKING. -/
theorem applyOp_shrinking {s : LMState} {tid : Nat} (op : LMOp)
    (h : s.txnState tid = .SHRINKING) :
    (applyOp s op).1.txnState tid = .SHRINKING := by
  have hck : ∀ tid2, (checkLock s tid2).1.txnState tid = .SHRINKING :=
    fun tid2 => checkLock_shrinking h
  cases op with
  | sharedOnRecord tid2 rid fd =>
    show (lockSharedOnRecord s tid2 rid fd).1.txnState tid = .SHRINKING
    unfold lockSharedOnRecord
    rcases hcke : checkLock s tid2 with ⟨s1, ro⟩
    have h1 : s1.txnState tid = .SHRINKING := by
      have := hck tid2; rw [hcke] at this; exact this
    cases ro with
    | some r => exact h1
    | none => exact h1
  | exclusiveOnRecord tid2 rid fd =>
    show (lockExclusiveOnRecord s tid2 rid fd).1.txnState tid = .SHRINKING
    unfold lockExclusiveOnRecord
    rcases hcke : checkLock s tid2 with ⟨s1, ro⟩
    have h1 : s1.txnState tid = .SHRINKING := by
      have := hck tid2; rw [hcke] at this; exact this
    cases ro with
    | some r => exact h1
    | none => exact h1
  | sharedOnTable tid2 fd =>
    show (lockSharedOnTable s tid2 fd).1.txnState tid = .SHRINKING
    unfold lockSharedOnTable
    rcases hcke : checkLock s tid2 with ⟨s1, ro⟩
    have h1 : s1.txnState tid = .SHRINKING := by
      have := hck tid2; rw [hcke] at this; exact this
    cases ro with
    | some r => exact h1
    | none => exact h1
  | exclusiveOnTable tid2 fd =>
    show (lockExclusiveOnTable s tid2 fd).1.txnState tid = .SHRINKING
    unfold lockExclusiveOnTable
    rcases hcke : checkLock s tid2 with ⟨s1, ro⟩
    have h1 : s1.txnState tid = .SHRINKING := by
      have := hck tid2; rw [hcke] at this; exact this
    cases ro with
    | some r => exact h1
    | none => exact h1
  | isOnTable tid2 fd =>
    show (lockISOnTable s tid2 fd).1.txnState tid = .SHRINKING
    unfold lockISOnTable
    rcases hcke : checkLock s tid2 with ⟨s1, ro⟩
    have h1 : s1.txnState tid = .SHRINKING := by
      have := hck tid2; rw [hcke] at this; exact this
    cases ro with
    | some r => exact h1
    | none => exact h1
  | ixOnTable tid2 fd =>
    show (lockIXOnTable s tid2 fd).1.txnState tid = .SHRINKING
    unfold lockIXOnTable
    rcases hcke : checkLock s tid2 with ⟨s1, ro⟩
    have h1 : s1.txnState tid = .SHRINKING := by
      have := hck tid2; rw [hcke] at this; exact this
    cases ro with
    | some r => exact h1
    | none => exact h1
  | unlockOp tid2 lid =>
    show (unlock s tid2 lid).1.txnState tid = .SHRINKING
    unfold unlock
    cases hst : s.txnState tid2 with
    | COMMITTED => exact h
    | ABORTED => exact h
    | DEFAULT =>
      dsimp only
      rw [if_neg (by decide : ¬ TransactionState.DEFAULT = .GROWING)]
      exact h
    | GROWING =>
      dsimp only
      rw [if_pos rfl]
      show Function.update s.txnState tid2 .SHRINKING tid = .SHRINKING
      rw [Function.update_apply]
      split_ifs with he
      · rfl
      · exact h
    | SHRINKING =>
      dsimp only
      rw [if_neg (by decide : ¬ TransactionState.SHRINKING = .GROWING)]
      exact h

/-- Running any trace leaves a SHRINKING transaction SHRINKING. -/
theorem runOps_shrinking {s : LMState} {tid : Nat} (ops : List LMOp)
    (h : s.txnState tid = .SHRINKING) :
    (runOps s ops).txnState tid = .SHRINKING := by
  induction ops generalizing s with
  | nil => exact h
  | cons op t ih =>
    show (runOps (applyOp s op).1 t).txnState tid = .SHRINKING
    exact ih (applyOp_shrinking op h)

/-- Any acquire by a SHRINKING transaction throws `LOCK_ON_SHIRINKING`. -/
theorem acquire_shrinking_throws {s : LMState} {tid : Nat} (op : LMOp)
    (h : s.txnState tid = .SHRINKING) (hacq : isAcquireBy tid op = true) :
    (applyOp s op).2 = .abortEx .LOCK_ON_SHIRINKING := by
  cases op with
  | sharedOnRecord tid2 rid fd =>
    have : tid2 = tid := by simpa [isAcquireBy] using hacq
    subst this
    show (lockSharedOnRecord s tid2 rid fd).2 = .abortEx .LOCK_ON_SHIRINKING
    unfold lockSharedOnRecord checkLock
    rw [h]
  | exclusiveOnRecord tid2 rid fd =>
    have : tid2 = tid := by simpa [isAcquireBy] using hacq
    subst this
    show (lockExclusiveOnRecord s tid2 rid fd).2 = .abortEx .LOCK_ON_SHIRINKING
    unfold lockExclusiveOnRecord checkLock
    rw [h]
  | sharedOnTable tid2 fd =>
    have : tid2 = tid := by simpa [isAcquireBy] using hacq
    subst this
    show (lockSharedOnTable s tid2 fd).2 = .abortEx .LOCK_ON_SHIRINKING
    unfold lockSharedOnTable checkLock
    rw [h]
  | exclusiveOnTable tid2 fd =>
    have : tid2 = tid := by simpa [isAcquireBy] using hacq
    subst this
    show (lockExclusiveOnTable s tid2 fd).2 = .abortEx .LOCK_ON_SHIRINKING
    unfold lockExclusiveOnTable checkLock
    rw [h]
  | isOnTable tid2 fd =>
    have : tid2 = tid := by simpa [isAcquireBy] using hacq
    subst this
    show (lockISOnTable s tid2 fd).2 = .abortEx .LOCK_ON_SHIRINKING
    unfold lockISOnTable checkLock
    rw [h]
  | ixOnTable tid2 fd =>
    have : tid2 = tid := by simpa [isAcquireBy] using hacq
    subst this
    show (lockIXOnTable s tid2 fd).2 = .abortEx .LOCK_ON_SHIRINKING
    unfold lockIXOnTable checkLock
    rw [h]
  | unlockOp tid2 lid => simp [isAcquireBy] at hacq

/-- `unlock` moves a GROWING transaction to SHRINKING before anything else. -/
theorem unlock_growing_to_shrinking {s : LMState} {tid : Nat} (lid : LockDataId)
    (h : s.txnState tid = .GROWING) :
    (unlock s tid lid).1.txnState tid = .SHRINKING := by
  unfold unlock
  rw [h]
  dsimp only
  rw [if_pos rfl]
  show Function.update s.txnState tid .SHRINKING tid = .SHRINKING
  rw [Function.update_same]

/-- A state with one GROWING transaction and an otherwise pristine manager,
used to instantiate the hypothesis-bearing lock theorems. -/
def lmGrow : LMState :=
  { txnState := fun _ => .GROWING, lockTable := fun _ => emptyQueue }

/-- C6: once a GROWING transaction releases any lock (here: any `unlock`
call, even for a lock it never held), it is SHRINKING, it stays SHRINKING
across every later lock-manager call, and every later acquire it issues
(table-IS/IX/S/X or row-S/X) returns the thrown `LOCK_ON_SHIRINKING`
abort, as long as no terminal transition intervenes. -/
theorem C6_two_phase_discipline (s : LMState) (tid : Nat) (lid : LockDataId)
    (h : s.txnState tid = .GROWING) :
    (unlock s tid lid).1.txnState tid = .SHRINKING ∧
    (∀ ops : List LMOp,
      (runOps (unlock s tid lid).1 ops).txnState tid = .SHRINKING) ∧
    (∀ ops : List LMOp, ∀ op : LMOp, isAcquireBy tid op = true →
      (applyOp (runOps (unlock s tid lid).1 ops) op).2 =
        .abortEx .LOCK_ON_SHIRINKING) := by
  have h1 := unlock_growing_to_shrinking lid h
  refine ⟨h1, fun ops => runOps_shrinking ops h1, fun ops op hacq => ?_⟩
  exact acquire_shrinking_throws op (runOps_shrinking ops h1) hacq

/-- Witness for C6 at a concrete state: transaction 0 releases a lock it
holds nothing on, becomes SHRINKING, and its next IX acquire throws. -/
theorem C6_two_phase_discipline_witness :
    (unlock lmGrow 0 (.table 0)).1.txnState 0 = .SHRINKING ∧
    (applyOp (runOps (unlock lmGrow 0 (.table 0)).1 []) (.ixOnTable 0 0)).2 =
      .abortEx .LOCK_ON_SHIRINKING := by
  have h := C6_two_phase_discipline lmGrow 0 (.table 0) rfl
  exact ⟨h.1, h.2.2 [] (.ixOnTable 0 0) rfl⟩

/-- C10: for a GROWING transaction, `unlock` on a lock id it holds no
request in (in particular one absent from the lock table) still returns
true, moves the transaction to SHRINKING, and leaves the lock table
unchanged — exactly like a real release. -/
theorem C10_unlock_unknown_lock (s : LMState) (tid : Nat) (lid : LockDataId)
    (hst : s.txnState tid = .GROWING)
    (habs : findReq tid (s.lockTable lid).requestQueue = none) :
    (unlock s tid lid).2 = .ok true ∧
    (unlock s tid lid).1.txnState tid = .SHRINKING ∧
    (unlock s tid lid).1.lockTable = s.lockTable := by
  refine ⟨?_, unlock_growing_to_shrinking lid hst, ?_⟩
  · unfold unlock
    rw [hst]
    dsimp only
    rw [if_pos rfl]
    show (applyQ _ lid (unlockQ tid _)).2 = .ok true
    unfold unlockQ
    rw [show ({ s with txnState := Function.update s.txnState tid .SHRINKING }
      : LMState).lockTable = s.lockTable from rfl, habs]
    rfl
  · unfold unlock
    rw [hst]
    dsimp only
    rw [if_pos rfl]
    show Function.update s.lockTable lid
      (unlockQ tid (s.lockTable lid)).1 = s.lockTable
    unfold unlockQ
    rw [habs]
    exact Function.update_eq_self lid s.lockTable

/-- Witness for C10: releasing a never-held table lock in a pristine state. -/
theorem C10_unlock_unknown_lock_witness :
    (unlock lmGrow 0 (.table 5)).2 = .ok true ∧
    (unlock lmGrow 0 (.table 5)).1.txnState 0 = .SHRINKING ∧
    (unlock lmGrow 0 (.table 5)).1.lockTable = lmGrow.lockTable :=
  C10_unlock_unknown_lock lmGrow 0 (.table 5) rfl rfl

/-- C8 (amended): in every reachable lock-manager state, every queue's
`group_lock_mode_` equals the join, in the IS < IX < S < SIX < X lattice, of
the modes of the requests in the queue (NON_LOCK when empty).  The
shared-count/ix-count half of the original claim is refuted separately. -/
theorem C8_group_mode_is_join {s : LMState} (h : ReachLM s) (lid : LockDataId) :
    (s.lockTable lid).groupLockMode = joinModes (s.lockTable lid).requestQueue :=
  (ReachLM_inv h lid).1

/-- Witness for C8: the state reached by one successful table-S acquire. -/
theorem C8_group_mode_is_join_witness :
    ((applyOp initLM (.sharedOnTable 0 0)).1.lockTable (.table 0)).groupLockMode =
      joinModes ((applyOp initLM (.sharedOnTable 0 0)).1.lockTable
        (.table 0)).requestQueue :=
  C8_group_mode_is_join (ReachLM.step (.sharedOnTable 0 0) ReachLM.init) (.table 0)

/-- Counterexample for C8 as stated: a fresh table-S grant succeeds but
leaves `shared_lock_num_` at 0 while one SHARED request sits in the queue,
so the shared count does not equal the number of S-or-SIX holders. -/
theorem C8_shared_count_counterexample :
    (lockSharedOnTable initLM 0 0).2 = .ok true ∧
    ((lockSharedOnTable initLM 0 0).1.lockTable (.table 0)).sharedLockNum = 0 ∧
    ((lockSharedOnTable initLM 0 0).1.lockTable (.table 0)).requestQueue.countP
      (fun r => r.mode == .SHARED || r.mode == .S_IX) = 1 := by
  refine ⟨?_, ?_, ?_⟩ <;> decide

/-- C7: for a GROWING transaction, a row-X acquire is granted exactly when
the row's queue is empty, or the transaction already holds X, or it holds S
(or IS) and is the queue's only holder (upgraded in place); in every other
configuration the call throws `DEADLOCK_PREVENTION`.  The hypotheses state
the lock-table invariant (group mode is the join) and that the transaction
has at most one request in the queue. -/
theorem C7_row_exclusive_decision (s : LMState) (tid : Nat) (rid : Rid) (fd : Int)
    (hst : s.txnState tid = .GROWING)
    (hg : (s.lockTable (.record fd rid)).groupLockMode =
      joinModes (s.lockTable (.record fd rid)).requestQueue)
    (huniq : ∀ r1 ∈ (s.lockTable (.record fd rid)).requestQueue,
      ∀ r2 ∈ (s.lockTable (.record fd rid)).requestQueue,
        r1.txnId = tid → r2.txnId = tid → r1 = r2) :
    ((lockExclusiveOnRecord s tid rid fd).2 = .ok true ↔
      ((s.lockTable (.record fd rid)).requestQueue = [] ∨
       (∃ r ∈ (s.lockTable (.record fd rid)).requestQueue,
          r.txnId = tid ∧ r.mode = .EXCLUSIVE) ∨
       ((∃ r ∈ (s.lockTable (.record fd rid)).requestQueue,
          r.txnId = tid ∧ (r.mode = .SHARED ∨ r.mode = .INTENTION_SHARED)) ∧
        (s.lockTable (.record fd rid)).requestQueue.length = 1))) ∧
    ((lockExclusiveOnRecord s tid rid fd).2 ≠ .ok true →
      (lockExclusiveOnRecord s tid rid fd).2 = .abortEx .DEADLOCK_PREVENTION) := by
  have hres : (lockExclusiveOnRecord s tid rid fd).2 =
      (exclusiveOnRecordQ tid (s.lockTable (.record fd rid))).2 := by
    unfold lockExclusiveOnRecord checkLock
    rw [hst]
    rfl
  rw [hres]
  set q := s.lockTable (.record fd rid) with hq
  unfold exclusiveOnRecordQ
  cases hf : findReq tid q.requestQueue with
  | none =>
    have habs := findReq_none hf
    dsimp only
    split_ifs with hguard
    · constructor
      · constructor
        · intro hcontra; cases hcontra
        · rintro (hemp | ⟨r, hr, hrt, _⟩ | ⟨⟨r, hr, hrt, _⟩, _⟩)
          · exfalso
            apply hguard
            rw [hg, hemp]
            rfl
          · exact absurd hrt (habs r hr)
          · exact absurd hrt (habs r hr)
      · intro _; rfl
    · rw [Ne, not_not] at hguard
      constructor
      · constructor
        · intro _
          exact Or.inl (joinModes_eq_nonlock (hg ▸ hguard))
        · intro _; rfl
      · intro hcontra; exact absurd rfl hcontra
  | some req =>
    obtain ⟨hmem, htid⟩ := findReq_some hf
    dsimp only
    split_ifs with h1 h2
    · constructor
      · constructor
        · intro _
          exact Or.inr (Or.inl ⟨req, hmem, htid, h1⟩)
        · intro _; rfl
      · intro hcontra; exact absurd rfl hcontra
    · constructor
      · constructor
        · intro _
          exact Or.inr (Or.inr ⟨⟨req, hmem, htid, h2.1.symm⟩, h2.2⟩)
        · intro _; rfl
      · intro hcontra; exact absurd rfl hcontra
    · constructor
      · constructor
        · intro hcontra; cases hcontra
        · rintro (hemp | ⟨r, hr, hrt, hrm⟩ | ⟨⟨r, hr, hrt, hrm⟩, hlen⟩)
          · rw [hemp] at hmem; cases hmem
          · have : r = req := huniq r hr req hmem hrt htid
            subst this
            exact absurd hrm h1
          · have : r = req := huniq r hr req hmem hrt htid
            subst this
            exact absurd ⟨hrm.symm, hlen⟩ h2
      · intro _; rfl

/-- Witness for C7: on the empty queue the row-X acquire is granted. -/
theorem C7_row_exclusive_decision_witness :
    (lockExclusiveOnRecord lmGrow 0 ⟨0, 0⟩ 0).2 = .ok true :=
  ((C7_row_exclusive_decision lmGrow 0 ⟨0, 0⟩ 0 rfl rfl
    (fun r1 h1 => by cases h1)).1).2 (Or.inl rfl)

/-! ## Log manager (`recovery/log_manager.cpp`) -/

/-- A serialized log record as the log buffer sees it: its assigned LSN and
its byte length (`log_tot_len_`). -/
structure LogRec where
  lsn : Nat
  len : Nat
deriving DecidableEq, Repr

/-- Log-manager state: `global_lsn_` (starts at 0), `persist_lsn_` (starts at
`INVALID_LSN = -1`), the in-memory `log_buffer_`, and the records already
appended to the on-disk log file. -/
structure LogMgrState where
  globalLsn : Nat
  persistLsn : Int
  buffer : List LogRec
  disk : List LogRec
deriving Repr

/-- The buffer's `offset_`: total bytes of the records it holds. -/
def bufOffset (s : LogMgrState) : Nat := (s.buffer.map (·.len)).sum

/-- `LogManager::flush_log_to_disk`: write the buffer to the log file, clear
it, and set `persist_lsn_ = global_lsn_ - 1`. -/
def flushLogToDisk (s : LogMgrState) : LogMgrState :=
  { s with disk := s.disk ++ s.buffer
           buffer := []
           persistLsn := (s.globalLsn : Int) - 1 }

/-- `LogManager::add_log_to_buffer`: assign `lsn = global_lsn_++`, flush
first if the buffer cannot hold the record (`is_full` is
`offset_ + append_size > LOG_BUFFER_SIZE`, modelled from the spec since
`log_manager.h` is not in `src/`), then append the serialized record. -/
def addLogToBuffer (cap : Nat) (s : LogMgrState) (len : Nat) : LogMgrState × Nat :=
  let lsn := s.globalLsn
  let s1 := { s with globalLsn := s.globalLsn + 1 }
  let s2 := if cap < bufOffset s1 + len then flushLogToDisk s1 else s1
  ({ s2 with buffer := s2.buffer ++ [⟨lsn, len⟩] }, lsn)

/-- The freshly constructed log manager. -/
def initLog : LogMgrState :=
  { globalLsn := 0, persistLsn := -1, buffer := [], disk := [] }

/-- One external log-manager call. -/
inductive LogOp
  | add (len : Nat)
  | flush
deriving DecidableEq, Repr

/-- Execute one log-manager call. -/
def applyLogOp (cap : Nat) (s : LogMgrState) : LogOp → LogMgrState
  | .add len => (addLogToBuffer cap s len).1
  | .flush => flushLogToDisk s

/-- Run a sequence of log-manager calls from the fresh state. -/
def runLog (cap : Nat) (ops : List LogOp) : LogMgrState :=
  ops.foldl (applyLogOp cap) initLog

/-- Log-manager invariant: buffered records sit at or above `persist_lsn_`,
the records in file-then-buffer order carry LSNs 0,1,2,…, and
`persist_lsn_` never reaches `global_lsn_`. -/
def LogInv (s : LogMgrState) : Prop :=
  (∀ r ∈ s.buffer, s.persistLsn ≤ (r.lsn : Int)) ∧
  ((s.disk ++ s.buffer).map (·.lsn) = List.range s.globalLsn) ∧
  s.persistLsn ≤ (s.globalLsn : Int) - 1

/-- `flush_log_to_disk` preserves the invariant. -/
theorem LogInv_flush {s : LogMgrState} (h : LogInv s) : LogInv (flushLogToDisk s) := by
  obtain ⟨h1, h2, h3⟩ := h
  refine ⟨?_, ?_, le_refl _⟩
  · intro r hr; cases hr
  · show List.map (fun r => r.lsn) ((s.disk ++ s.buffer) ++ []) = List.range s.globalLsn
    rw [List.append_nil]
    exact h2

/-- `add_log_to_buffer` preserves the invariant. -/
theorem LogInv_add {cap : Nat} {s : LogMgrState} (len : Nat) (h : LogInv s) :
    LogInv (addLogToBuffer cap s len).1 := by
  obtain ⟨h1, h2, h3⟩ := h
  unfold addLogToBuffer
  dsimp only
  split_ifs with hfull
  · -- internal flush first: the new record enters an empty buffer while
    -- persist_lsn_ has just been set to its own LSN
    unfold flushLogToDisk
    dsimp only
    refine ⟨?_, ?_, ?_⟩
    · intro r hr
      rcases List.mem_singleton.1 (by simpa using hr) with rfl
      dsimp only
      push_cast
      omega
    · show List.map (fun r => r.lsn)
          ((s.disk ++ s.buffer) ++ ([] ++ [LogRec.mk s.globalLsn len])) =
        List.range (s.globalLsn + 1)
      rw [List.nil_append, List.range_succ, List.map_append, h2]
      rfl
    · dsimp only
      push_cast
      omega
  · refine ⟨?_, ?_, ?_⟩
    · intro r hr
      rcases List.mem_append.1 hr with hr1 | hr2
      · exact h1 r hr1
      · rcases List.mem_singleton.1 hr2 with rfl
        dsimp only
        omega
    · show List.map (fun r => r.lsn)
          (s.disk ++ (s.buffer ++ [LogRec.mk s.globalLsn len])) =
        List.range (s.globalLsn + 1)
      rw [List.range_succ, ← List.append_assoc, List.map_append, h2]
      rfl
    · show s.persistLsn ≤ ((s.globalLsn + 1 : Nat) : Int) - 1
      push_cast
      omega

/-- Every state reached by a call sequence satisfies the invariant. -/
theorem runLog_inv (cap : Nat) (ops : List LogOp) : LogInv (runLog cap ops) := by
  suffices h : ∀ s, LogInv s → LogInv (ops.foldl (applyLogOp cap) s) from
    h initLog ⟨(fun r hr => by cases hr), rfl, by norm_num [initLog]⟩
  induction ops with
  | nil => exact fun s hs => hs
  | cons op t ih =>
    intro s hs
    apply ih
    cases op with
    | add len => exact LogInv_add len hs
    | flush => exact LogInv_flush hs

/-- Counterexample for C4 as stated: with a 16-byte buffer, adding two
10-byte records makes the second `add_log_to_buffer` flush internally and
set `persist_lsn_ = 1`, yet the record with LSN 1 is appended to the buffer
only after that flush, so a record with lsn ≤ persist_lsn has not reached
the log file when the call returns. -/
theorem C4_persist_lsn_counterexample :
    (runLog 16 [.add 10, .add 10]).persistLsn = 1 ∧
    (∃ r ∈ (runLog 16 [.add 10, .add 10]).buffer, r.lsn = 1) ∧
    (∀ r ∈ (runLog 16 [.add 10, .add 10]).disk, r.lsn ≠ 1) := by
  refine ⟨?_, ?_, ?_⟩ <;> decide

/-- C4 (amended): after any sequence of log-manager calls, every log record
with lsn strictly below `persist_lsn_` has reached the log file; only the
record whose lsn equals `persist_lsn_` can still sit in the buffer (it does
exactly when the latest `add_log_to_buffer` flushed internally). -/
theorem C4_records_below_persist_on_disk (cap : Nat) (ops : List LogOp) (lsn : Nat)
    (h : (lsn : Int) < (runLog cap ops).persistLsn) :
    ∃ r ∈ (runLog cap ops).disk, r.lsn = lsn := by
  obtain ⟨h1, h2, h3⟩ := runLog_inv cap ops
  have hlt : lsn < (runLog cap ops).globalLsn := by omega
  have hmem : lsn ∈ (((runLog cap ops).disk ++ (runLog cap ops).buffer).map
      (fun r => r.lsn)) := by
    rw [h2]
    exact List.mem_range.2 hlt
  obtain ⟨r, hr, hrl⟩ := List.mem_map.1 hmem
  rcases List.mem_append.1 hr with hd | hb
  · exact ⟨r, hd, hrl⟩
  · exfalso
    have := h1 r hb
    rw [hrl] at this
    omega

/-- Witness for C4: after two adds and an explicit flush, record 0 is on
disk while persist_lsn is 1. -/
theorem C4_records_below_persist_on_disk_witness :
    ∃ r ∈ (runLog 100 [.add 10, .add 10, .flush]).disk, r.lsn = 0 :=
  C4_records_below_persist_on_disk 100 [.add 10, .add 10, .flush] 0 (by decide)

/-! ## Buffer-pool write-back (`storage/buffer_pool_manager.cpp`) -/

/-- One buffer-pool frame, reduced to what the WAL rule observes: the page
it holds, that page's page-LSN, and the dirty flag. -/
structure Frame where
  pageNo : Nat
  pageLsn : Int
  dirty : Bool
deriving DecidableEq, Repr

/-- Buffer-pool state for one frame: the log manager, the frame, and the
page-LSN each page currently carries on disk (-1 when never written). -/
structure BPState where
  log : LogMgrState
  frame : Frame
  diskPages : Nat → Int

/-- `BufferPoolManager::update_page` (the replacement write-back used by
`fetch_page` misses and `new_page`): if the frame is dirty and its page-LSN
exceeds `persist_lsn_`, flush the log first; then write the page to disk,
clear the dirty flag and reset the frame for the incoming page. -/
def updatePage (s : BPState) (newPageNo : Nat) : BPState :=
  if s.frame.dirty then
    let log1 := if s.log.persistLsn < s.frame.pageLsn then flushLogToDisk s.log else s.log
    { log := log1
      diskPages := Function.update s.diskPages s.frame.pageNo s.frame.pageLsn
      frame := { pageNo := newPageNo, pageLsn := 0, dirty := false } }
  else
    { s with frame := { pageNo := newPageNo, pageLsn := 0, dirty := false } }

/-- `BufferPoolManager::flush_page`: writes the frame to disk regardless of
the dirty flag and clears it — with no interaction with the log manager. -/
def flushPage (s : BPState) : BPState :=
  { s with diskPages := Function.update s.diskPages s.frame.pageNo s.frame.pageLsn
           frame := { s.frame with dirty := false } }

/-- `BufferPoolManager::update_page_lsn`: set the frame's page-LSN and mark
it dirty. -/
def updatePageLsn (s : BPState) (lsn : Int) : BPState :=
  { s with frame := { s.frame with pageLsn := lsn, dirty := true } }

/-- The log state used by the C2 scenario: records 0–3 flushed, records 4
and 5 still in the buffer. -/
def c2log : LogMgrState :=
  runLog 100 [.add 10, .add 10, .add 10, .add 10, .flush, .add 10, .add 10]

/-- The C2 scenario: a frame holding page 7, updated by log records up to
LSN 5, dirty. -/
def c2state : BPState :=
  updatePageLsn
    { log := c2log
      frame := { pageNo := 7, pageLsn := -1, dirty := false }
      diskPages := fun _ => -1 } 5

/-- Counterexample for C2 as stated: `flush_page` writes back a dirty frame
whose page-LSN (5) exceeds persist_lsn (3) without flushing the log — after
the page write the governing log record with LSN 5 is still absent from the
log file. -/
theorem C2_flush_page_counterexample :
    c2state.frame.dirty = true ∧
    c2state.log.persistLsn < c2state.frame.pageLsn ∧
    (flushPage c2state).diskPages 7 = 5 ∧
    (flushPage c2state).log.persistLsn = 3 ∧
    (∀ r ∈ (flushPage c2state).log.disk, r.lsn ≠ 5) := by
  refine ⟨?_, ?_, ?_, ?_, ?_⟩ <;> decide

/-- C2 (amended): on the replacement path `update_page`, whenever a dirty
frame whose page-LSN exceeds `persist_lsn_` is written back, the log is
flushed first: after the call the log buffer is empty, the page is on disk,
and every log record with lsn ≤ the page's page-LSN is in the log file. -/
theorem C2_update_page_wal (cap : Nat) (ops : List LogOp) (frame : Frame)
    (dp : Nat → Int) (newPageNo : Nat)
    (hdirty : frame.dirty = true)
    (hwal : (runLog cap ops).persistLsn < frame.pageLsn)
    (hlsn : frame.pageLsn < ((runLog cap ops).globalLsn : Int)) :
    (updatePage ⟨runLog cap ops, frame, dp⟩ newPageNo).diskPages frame.pageNo
        = frame.pageLsn ∧
    (updatePage ⟨runLog cap ops, frame, dp⟩ newPageNo).log.buffer = [] ∧
    (∀ lsn : Nat, (lsn : Int) ≤ frame.pageLsn →
      ∃ r ∈ (updatePage ⟨runLog cap ops, frame, dp⟩ newPageNo).log.disk, r.lsn = lsn) := by
  obtain ⟨h1, h2, h3⟩ := runLog_inv cap ops
  unfold updatePage
  rw [if_pos hdirty]
  dsimp only
  rw [if_pos hwal]
  refine ⟨Function.update_same _ _ _, rfl, ?_⟩
  intro lsn hle
  have hlt : lsn < (runLog cap ops).globalLsn := by omega
  have hmem : lsn ∈ (((runLog cap ops).disk ++ (runLog cap ops).buffer).map
      (fun r => r.lsn)) := by
    rw [h2]
    exact List.mem_range.2 hlt
  obtain ⟨r, hr, hrl⟩ := List.mem_map.1 hmem
  exact ⟨r, hr, hrl⟩

/-- Witness for C2 at the concrete scenario state. -/
theorem C2_update_page_wal_witness :
    (updatePage ⟨c2log, c2state.frame, c2state.diskPages⟩ 9).diskPages 7 = 5 ∧
    (updatePage ⟨c2log, c2state.frame, c2state.diskPages⟩ 9).log.buffer = [] ∧
    (∃ r ∈ (updatePage ⟨c2log, c2state.frame, c2state.diskPages⟩ 9).log.disk,
      r.lsn = 5) := by
  have h := C2_update_page_wal 100
    [.add 10, .add 10, .add 10, .add 10, .flush, .add 10, .add 10]
    c2state.frame c2state.diskPages 9 (by decide) (by decide) (by decide)
  exact ⟨h.1, h.2.1, h.2.2 5 (by decide)⟩

/-! ## Recovery analyze and undo (`recovery/log_recovery.cpp`) -/

/-- Log record types (`LogType`); the C++ enum spells begin/commit in lower
case. -/
inductive LogType
  | NEWPAGE | begin | commit | ABORT | INSERT | DELETE | UPDATE
deriving DecidableEq, Repr

/-- One deserialized log record as recovery sees it.  The row images
(`insert_value_`, `delete_value_`, `old_value_`, `update_value_`) are
opaque byte blobs the recovery code only copies around; they are abstracted
to integers. -/
structure RecoveryRec where
  type : LogType
  lsn : Int
  tid : Nat
  prevLsn : Int
  tableName : String
  rid : Rid
  value : Int
  oldValue : Int
deriving DecidableEq, Repr

/-- `active_txn_.emplace(tid, lsn)`: the std map `emplace` inserts only when
the key is absent — it never overwrites an existing entry. -/
def emplaceATT (tid : Nat) (lsn : Int) (att : List (Nat × Int)) : List (Nat × Int) :=
  if att.any (fun p => p.1 == tid) then att else att ++ [(tid, lsn)]

/-- `active_txn_.erase(tid)`. -/
def eraseATT (tid : Nat) (att : List (Nat × Int)) : List (Nat × Int) :=
  att.filter (fun p => p.1 != tid)

/-- The Active Transaction Table built by `RecoveryManager::analyze`:
NEWPAGE/begin/INSERT/DELETE/UPDATE records `emplace` the pair
(txn-id, record lsn); commit/ABORT erase the transaction. -/
def analyzeATT (log : List RecoveryRec) : List (Nat × Int) :=
  log.foldl (fun att r =>
    match r.type with
    | .NEWPAGE => emplaceATT r.tid r.lsn att
    | .begin => emplaceATT r.tid r.lsn att
    | .commit => eraseATT r.tid att
    | .ABORT => eraseATT r.tid att
    | .INSERT => emplaceATT r.tid r.lsn att
    | .DELETE => emplaceATT r.tid r.lsn att
    | .UPDATE => emplaceATT r.tid r.lsn att) []

/-- The recovered heap: per table name, record id to row image. -/
def Heap := String → Rid → Option Int

/-- `RmFileHandle::insert_record(rid, data)` as undo/redo uses it: place the
image at the given rid. -/
def heapInsert (h : Heap) (tab : String) (rid : Rid) (v : Int) : Heap :=
  fun t r => if t = tab ∧ r = rid then some v else h t r

/-- `RmFileHandle::delete_record(rid)`. -/
def heapDelete (h : Heap) (tab : String) (rid : Rid) : Heap :=
  fun t r => if t = tab ∧ r = rid then none else h t r

/-- `RmFileHandle::update_record(rid, data)`. -/
def heapUpdate (h : Heap) (tab : String) (rid : Rid) (v : Int) : Heap :=
  fun t r => if t = tab ∧ r = rid then some v else h t r

/-- Reading the record at a given LSN through `lsn_mapping_` (LSNs are
unique, so the mapping is lookup by LSN in the log). -/
def findRec (log : List RecoveryRec) (lsn : Int) : Option RecoveryRec :=
  log.find? (fun r => r.lsn == lsn)

/-- The per-transaction undo loop of `RecoveryManager::undo`: from a start
LSN, follow `prev_lsn_` (INVALID_LSN = -1 stops), compensating INSERT by
`delete_record`, DELETE by `insert_record` of the saved image, UPDATE by
`update_record` of the pre-image; control records are skipped.  `fuel`
bounds the walk (chains in a well-formed log are strictly decreasing). -/
def undoChain (log : List RecoveryRec) : Nat → Heap → Int → Heap
  | 0, h, _ => h
  | fuel+1, h, lsn =>
    if lsn = -1 then h
    else
      match findRec log lsn with
      | none => h
      | some r =>
        match r.type with
        | .INSERT => undoChain log fuel (heapDelete h r.tableName r.rid) r.prevLsn
        | .DELETE => undoChain log fuel (heapInsert h r.tableName r.rid r.value) r.prevLsn
        | .UPDATE => undoChain log fuel (heapUpdate h r.tableName r.rid r.oldValue) r.prevLsn
        | _ => undoChain log fuel h r.prevLsn

/-- `RecoveryManager::undo`: for every (txn-id, lsn) pair in the ATT, walk
the chain from that LSN. -/
def undoAll (log : List RecoveryRec) (att : List (Nat × Int)) (h : Heap) : Heap :=
  att.foldl (fun h p => undoChain log (log.length + 1) h p.2) h

/-- The two-record log of an uncommitted transaction: BEGIN at LSN 0, then
INSERT of image 7 at rid (0,0) with LSN 1 and prev-lsn 0. -/
def c1log : List RecoveryRec :=
  [⟨.begin, 0, 1, -1, "", ⟨0, 0⟩, 0, 0⟩,
   ⟨.INSERT, 1, 1, 0, "t", ⟨0, 0⟩, 7, 0⟩]

/-- The heap after the redo pass replayed the insert. -/
def c1heap : Heap := heapInsert (fun _ _ => none) "t" ⟨0, 0⟩ 7

/-- C1 evaluated at the failing input: `emplace` never updates the ATT, so
analyze leaves txn 1 mapped to LSN 0 (its BEGIN, the first record seen)
instead of LSN 1; the undo pass therefore starts at the BEGIN, compensates
nothing, and the uncommitted insert survives — whereas walking from the
latest LSN, as the claim requires, would delete it. -/
theorem C1_att_keeps_first_lsn :
    analyzeATT c1log = [(1, 0)] ∧
    undoAll c1log (analyzeATT c1log) c1heap "t" ⟨0, 0⟩ = some 7 ∧
    undoChain c1log (c1log.length + 1) c1heap 1 "t" ⟨0, 0⟩ = none := by
  refine ⟨?_, ?_, ?_⟩ <;> decide

/-! ## Transaction abort (`transaction/transaction_manager.cpp`) and the
write-records built by the executors -/

/-- Statement-level errors thrown by executors. -/
inductive ExecError
  | InternalError (msg : String)
  | UniquenessViolation
  | IndexEntryNotFound
  | RecordNotFound
  | IncompatibleType
  | InvalidValueCount
deriving DecidableEq, Repr

/-- Row images are byte sequences. -/
def RecBytes := List Int

/-- Heap keyed by table name and rid, holding row byte images. -/
def HeapB := String → Rid → Option (List Int)

/-- `insert_record(rid, data)`: place the image at the given rid. -/
def heapBInsert (h : HeapB) (tab : String) (rid : Rid) (v : List Int) : HeapB :=
  fun t r => if t = tab ∧ r = rid then some v else h t r

/-- `delete_record(rid)`. -/
def heapBDelete (h : HeapB) (tab : String) (rid : Rid) : HeapB :=
  fun t r => if t = tab ∧ r = rid then none else h t r

/-- `update_record(rid, data)`. -/
def heapBUpdate (h : HeapB) (tab : String) (rid : Rid) (v : List Int) : HeapB :=
  fun t r => if t = tab ∧ r = rid then some v else h t r

/-- Secondary indexes keyed by index name and full key bytes (columns
concatenated, tiebreaker appended), mapping to the row's rid. -/
def IndexMap := String → List Int → Option Rid

/-- `IxIndexHandle::insert_entry(key, rid)` at the map level. -/
def ixInsertEntry (ix : IndexMap) (name : String) (key : List Int) (rid : Rid) :
    IndexMap :=
  fun n k => if n = name ∧ k = key then some rid else ix n k

/-- `IxIndexHandle::delete_entry(key)` at the map level (absent keys are a
no-op returning false). -/
def ixDeleteEntry (ix : IndexMap) (name : String) (key : List Int) : IndexMap :=
  fun n k => if n = name ∧ k = key then none else ix n k

/-- The heap and every index. -/
structure DBState where
  heap : HeapB
  ix : IndexMap

/-- Write kinds (`WType`). -/
inductive WType
  | INSERT_TUPLE | DELETE_TUPLE | UPDATE_TUPLE
deriving DecidableEq, Repr

/-- A `WriteRecord`: the table-row constructor carries `GetTableName`,
`GetRid`, `GetRecord`; the index-entry constructor carries `GetIndexName`,
`GetRid`, `GetRecord`, and for index updates `GetOldRecord` /
`GetUpdatedRecord`. -/
inductive WriteRecord
  | tableWR (wtype : WType) (tabName : String) (rid : Rid) (rec : List Int)
  | indexWR (wtype : WType) (ixName : String) (rid : Rid)
      (rec oldRec updRec : List Int)
deriving DecidableEq, Repr

/-- One step of `TransactionManager::abort`: invert one write-record.
Table rows: INSERT→delete_record, DELETE→insert_record of the saved image,
UPDATE→update_record of the saved image.  Index entries: INSERT→delete_entry
of the saved key, DELETE→insert_entry of the saved key, UPDATE→delete the
updated key then insert the old key. -/
def undoWriteRecord (s : DBState) : WriteRecord → DBState
  | .tableWR .INSERT_TUPLE tab rid _ => { s with heap := heapBDelete s.heap tab rid }
  | .tableWR .DELETE_TUPLE tab rid rec => { s with heap := heapBInsert s.heap tab rid rec }
  | .tableWR .UPDATE_TUPLE tab rid rec => { s with heap := heapBUpdate s.heap tab rid rec }
  | .indexWR .INSERT_TUPLE name _ rec _ _ => { s with ix := ixDeleteEntry s.ix name rec }
  | .indexWR .DELETE_TUPLE name rid rec _ _ =>
      { s with ix := ixInsertEntry s.ix name rec rid }
  | .indexWR .UPDATE_TUPLE name rid _ oldRec updRec =>
      { s with ix := ixInsertEntry (ixDeleteEntry s.ix name updRec) name oldRec rid }

/-- `TransactionManager::abort`: pop the write-set from the back, inverting
each record, then release locks, flush the log and set state ABORTED. -/
def abortTM (s : DBState) (writeSet : List WriteRecord) : DBState × TransactionState :=
  (writeSet.reverse.foldl undoWriteRecord s, .ABORTED)

/-- Index metadata as the executors use it: the index name and the
(offset, length) slices of the indexed columns inside a row image. -/
structure IndexMeta where
  name : String
  cols : List (Nat × Nat)
deriving DecidableEq, Repr

/-- The key the executors build: per index column, copy `len` bytes from
`offset` in the row image; append the 4-byte tiebreaker, always -1. -/
def buildKey (meta : IndexMeta) (rec : List Int) : List Int :=
  (meta.cols.map (fun c => (rec.drop c.1).take c.2)).join ++ [-1]

/-- The per-index loop of `DeleteExecutor::Next`: delete the entry (throw
`IndexEntryNotFound` if absent) and append a write-record — which the code
tags `WType::INSERT_TUPLE`, not DELETE_TUPLE. -/
def deleteIndexPass (rid : Rid) (rec : List Int) (s : DBState)
    (ws : List WriteRecord) :
    List IndexMeta → Except ExecError (DBState × List WriteRecord)
  | [] => .ok (s, ws)
  | m :: rest =>
    let key := buildKey m rec
    if (s.ix m.name key).isSome then
      deleteIndexPass rid rec { s with ix := ixDeleteEntry s.ix m.name key }
        (ws ++ [.indexWR .INSERT_TUPLE m.name rid key [] []]) rest
    else .error .IndexEntryNotFound

/-- `DeleteExecutor::Next` for a single rid: fetch the row, remove every
index entry (recording index write-records), delete the row, record the
table write-record with the pre-image. -/
def deleteExecNext (tab : String) (indexes : List IndexMeta) (s : DBState)
    (rid : Rid) (ws : List WriteRecord) :
    Except ExecError (DBState × List WriteRecord) :=
  match s.heap tab rid with
  | none => .error .RecordNotFound
  | some rec =>
    match deleteIndexPass rid rec s ws indexes with
    | .error e => .error e
    | .ok (s1, ws1) =>
      .ok ({ s1 with heap := heapBDelete s1.heap tab rid },
           ws1 ++ [.tableWR .DELETE_TUPLE tab rid rec])

/-- The index on column (0,1) of table t used by the C3 scenario. -/
def c3meta : IndexMeta := { name := "i", cols := [(0, 1)] }

/-- Initial state: row [7] at rid (0,0) in table t, indexed under key
[7, -1]. -/
def c3s0 : DBState :=
  { heap := heapBInsert (fun _ _ => none) "t" ⟨0, 0⟩ [7]
    ix := ixInsertEntry (fun _ _ => none) "i" [7, -1] ⟨0, 0⟩ }

/-- The delete statement followed by abort. -/
def c3run : Except ExecError (DBState × List WriteRecord) :=
  deleteExecNext "t" [c3meta] c3s0 ⟨0, 0⟩ []

/-- The state after aborting the transaction that ran the delete. -/
def c3final : DBState × TransactionState :=
  match c3run with
  | .ok (s1, ws) => abortTM s1 ws
  | .error _ => (c3s0, .ABORTED)

/-- C3 evaluated at the failing input: a transaction deletes the single
indexed row and aborts.  The heap row is restored from the DELETE
write-record, but the index write-record was tagged INSERT_TUPLE by the
delete executor, so abort runs `delete_entry` on the already-removed key
instead of reinserting it: the index entry is lost and the state is not
byte-identical to the pre-transaction state. -/
theorem C3_abort_loses_index_entry :
    c3s0.ix "i" [7, -1] = some ⟨0, 0⟩ ∧
    c3run.isOk = true ∧
    c3final.1.heap "t" ⟨0, 0⟩ = some [7] ∧
    c3final.1.ix "i" [7, -1] = none ∧
    c3final.2 = .ABORTED := by
  refine ⟨?_, ?_, ?_, ?_, ?_⟩ <;> decide

/-! ## Insert executor (`execution/executor_insert.h`) -/

/-- The uniqueness probe loop of `InsertExecutor::Next`: for each index,
build the tiebreaker -1 key from the record buffer and call `get_value`;
a hit throws `InternalError("Non-Unique Index!")`. -/
def insertCheckIndexes (s : DBState) (rec : List Int) :
    List IndexMeta → Option ExecError
  | [] => none
  | m :: rest =>
    if (s.ix m.name (buildKey m rec)).isSome then
      some (.InternalError "Non-Unique Index!")
    else insertCheckIndexes s rec rest

/-- The per-index insertion loop of `InsertExecutor::Next`: insert the key
into each index and append an index write-record. -/
def insertIndexPass (rid : Rid) (rec : List Int) :
    List IndexMeta → DBState → List WriteRecord → DBState × List WriteRecord
  | [], s, ws => (s, ws)
  | m :: rest, s, ws =>
    let key := buildKey m rec
    insertIndexPass rid rec rest
      { s with ix := ixInsertEntry s.ix m.name key rid }
      (ws ++ [.indexWR .INSERT_TUPLE m.name rid key [] []])

/-- `InsertExecutor::Next` from the uniqueness probe on (the record buffer
is already built and type-checked): probe all indexes before any mutation;
on a hit return the thrown error with nothing changed; otherwise insert the
row at the rid the record file allocates, mirror it into every index, and
append the write-records. -/
def insertExecNext (tab : String) (indexes : List IndexMeta) (s : DBState)
    (rec : List Int) (freshRid : Rid) (ws : List WriteRecord) :
    DBState × List WriteRecord × Option ExecError :=
  match insertCheckIndexes s rec indexes with
  | some e => (s, ws, some e)
  | none =>
    let s1 := { s with heap := heapBInsert s.heap tab freshRid rec }
    let res := insertIndexPass freshRid rec indexes s1 ws
    (res.1, res.2 ++ [.tableWR .INSERT_TUPLE tab freshRid rec], none)

/-- The unique index on (id) of the E2 scenario. -/
def c5meta : IndexMeta := { name := "T_id.idx", cols := [(0, 1)] }

/-- E2 state: rows (1,a) and (2,b) present and indexed. -/
def c5s0 : DBState :=
  { heap := heapBInsert (heapBInsert (fun _ _ => none) "T" ⟨0, 0⟩ [1, 97])
      "T" ⟨0, 1⟩ [2, 98]
    ix := ixInsertEntry (ixInsertEntry (fun _ _ => none) "T_id.idx" [1, -1] ⟨0, 0⟩)
      "T_id.idx" [2, -1] ⟨0, 1⟩ }

/-- Counterexample for C5 as stated: inserting (1,c) whose index key matches
the existing entry raises `InternalError("Non-Unique Index!")`, not
`UniquenessViolation`. -/
theorem C5_raises_internal_error :
    (insertExecNext "T" [c5meta] c5s0 [1, 99] ⟨0, 2⟩ []).2.2 =
      some (.InternalError "Non-Unique Index!") ∧
    ExecError.InternalError "Non-Unique Index!" ≠ ExecError.UniquenessViolation := by
  refine ⟨?_, ?_⟩ <;> decide

/-- If any index probe hits, the check loop returns the thrown error. -/
theorem insertCheckIndexes_hit {s : DBState} {rec : List Int}
    {indexes : List IndexMeta}
    (h : ∃ m ∈ indexes, (s.ix m.name (buildKey m rec)).isSome = true) :
    insertCheckIndexes s rec indexes = some (.InternalError "Non-Unique Index!") := by
  induction indexes with
  | nil => obtain ⟨m, hm, -⟩ := h; cases hm
  | cons a rest ih =>
    obtain ⟨m, hm, hprobe⟩ := h
    unfold insertCheckIndexes
    rcases List.mem_cons.1 hm with rfl | hrest
    · rw [if_pos hprobe]
    · split_ifs with ha
      · rfl
      · exact ih ⟨m, hrest, hprobe⟩

/-- C5 (amended): when the row's key for some index matches an existing
entry, `InsertExecutor::Next` throws `InternalError("Non-Unique Index!")`
(the spec's `UniquenessViolation` is never raised), and the probe happens
before any mutation, so the heap, the indexes and the write-set are
unchanged. -/
theorem C5_duplicate_insert_rejected (tab : String) (indexes : List IndexMeta)
    (s : DBState) (rec : List Int) (freshRid : Rid) (ws : List WriteRecord)
    (h : ∃ m ∈ indexes, (s.ix m.name (buildKey m rec)).isSome = true) :
    (insertExecNext tab indexes s rec freshRid ws).2.2 =
      some (.InternalError "Non-Unique Index!") ∧
    (insertExecNext tab indexes s rec freshRid ws).1 = s ∧
    (insertExecNext tab indexes s rec freshRid ws).2.1 = ws := by
  unfold insertExecNext
  rw [insertCheckIndexes_hit h]
  exact ⟨rfl, rfl, rfl⟩

/-- Witness for C5 at the E2 input. -/
theorem C5_duplicate_insert_rejected_witness :
    (insertExecNext "T" [c5meta] c5s0 [1, 99] ⟨0, 2⟩ []).2.2 =
      some (.InternalError "Non-Unique Index!") ∧
    (insertExecNext "T" [c5meta] c5s0 [1, 99] ⟨0, 2⟩ []).1 = c5s0 ∧
    (insertExecNext "T" [c5meta] c5s0 [1, 99] ⟨0, 2⟩ []).2.1 = [] :=
  C5_duplicate_insert_rejected "T" [c5meta] c5s0 [1, 99] ⟨0, 2⟩ []
    ⟨c5meta, by decide, by decide⟩

/-! ## B+-tree insert path (`index/ix_index_handle.cpp`)

Keys are modelled as integers (a single-INT-column index compared by
`ix_compare`); page numbers are integers with `IX_NO_PAGE = -1` and the
leaf-header sentinel page `IX_LEAF_HEADER_PAGE = 1`. -/

/-- One tree node page: `page_hdr` fields plus the key and rid arrays.  For
internal nodes `rids[i].pageNo` is the child page. -/
structure IxNode where
  isLeaf : Bool
  keys : List Int
  rids : List Rid
  parent : Int
  prevLeaf : Int
  nextLeaf : Int
deriving DecidableEq, Repr

/-- A node as `new_page` + `reset_memory` leaves it: all-zero header. -/
def zeroNode : IxNode :=
  { isLeaf := false, keys := [], rids := [], parent := 0, prevLeaf := 0, nextLeaf := 0 }

/-- The index file's pages. -/
structure IxTree where
  rootPage : Int
  lastLeaf : Int
  nextAlloc : Int
  pages : Int → Option IxNode

/-- Store a node at a page number. -/
def setPage (pages : Int → Option IxNode) (no : Int) (n : IxNode) :
    Int → Option IxNode :=
  fun i => if i = no then some n else pages i

/-- The binary-search loop of `IxNodeHandle::lower_bound`.  The loop's
`right` int is carried as `rpo = right + 1` so indices stay natural; the
interval shrinks every iteration, so fuel `keys.length + 1` always
suffices. -/
def lbLoop (keys : List Int) (target : Int) : Nat → Nat → Nat → Nat
  | 0, left, _ => left
  | fuel + 1, left, rpo =>
    if left < rpo then
      let mid := (left + rpo - 1) / 2
      if keys.getD mid 0 < target then lbLoop keys target fuel (mid + 1) rpo
      else lbLoop keys target fuel left mid
    else left

/-- `lower_bound`: first index with key ≥ target, in [0, num_key]. -/
def nodeLowerBound (n : IxNode) (target : Int) : Nat :=
  lbLoop n.keys target (n.keys.length + 1) 0 n.keys.length

/-- The binary-search loop of `IxNodeHandle::upper_bound` (left starts
at 1; `cmp ≤ 0` advances left). -/
def ubLoop (keys : List Int) (target : Int) : Nat → Nat → Nat → Nat
  | 0, left, _ => left
  | fuel + 1, left, rpo =>
    if left < rpo then
      let mid := (left + rpo - 1) / 2
      if keys.getD mid 0 ≤ target then ubLoop keys target fuel (mid + 1) rpo
      else ubLoop keys target fuel left mid
    else left

/-- `upper_bound`: first index in [1, num_key] with key > target. -/
def nodeUpperBound (n : IxNode) (target : Int) : Nat :=
  ubLoop n.keys target (n.keys.length + 1) 1 n.keys.length

/-- `internal_lookup`: child at `upper_bound(key) - 1`. -/
def internalLookup (n : IxNode) (key : Int) : Int :=
  (n.rids.getD (nodeUpperBound n key - 1) ⟨-1, -1⟩).pageNo

/-- `IxNodeHandle::insert`: find the lower bound; skip duplicates; insert
the pair by shifting (`insert_pairs` with n = 1). -/
def nodeInsert (n : IxNode) (key : Int) (rid : Rid) : IxNode :=
  let pos := nodeLowerBound n key
  if pos ≥ n.keys.length ∨ n.keys.getD pos 0 ≠ key then
    { n with keys := n.keys.insertIdx pos key, rids := n.rids.insertIdx pos rid }
  else n

/-- `IxNodeHandle::insert_pair` at a given position. -/
def insertPair (n : IxNode) (pos : Nat) (key : Int) (rid : Rid) : IxNode :=
  { n with keys := n.keys.insertIdx pos key, rids := n.rids.insertIdx pos rid }

/-- `find_child`: the rank of a child page inside an internal node. -/
def findChild (parent : IxNode) (childPage : Int) : Nat :=
  parent.rids.findIdx (fun r => r.pageNo == childPage)

/-- `IxIndexHandle::find_leaf_page`: descend from the root by
`internal_lookup` until a leaf. -/
def findLeafPage (pages : Int → Option IxNode) (key : Int) :
    Nat → Int → Option (Int × IxNode)
  | 0, _ => none
  | fuel + 1, cur =>
    match pages cur with
    | none => none
    | some n =>
      if n.isLeaf then some (cur, n)
      else findLeafPage pages key fuel (internalLookup n key)

/-- `IxIndexHandle::maintain_parent`: walk up from a node, copying the
child's first key into the parent's separator at the child's rank until the
keys already agree or the root is passed. -/
def maintainParent : Nat → IxTree → Int → IxTree
  | 0, t, _ => t
  | fuel + 1, t, curPage =>
    match t.pages curPage with
    | none => t
    | some cur =>
      if cur.parent = -1 then t
      else
        match t.pages cur.parent with
        | none => t
        | some par =>
          let rank := findChild par curPage
          if par.keys.getD rank 0 = cur.keys.getD 0 0 then t
          else
            let par2 := { par with keys := par.keys.set rank (cur.keys.getD 0 0) }
            maintainParent fuel
              { t with pages := setPage t.pages cur.parent par2 } cur.parent

/-- `IxIndexHandle::split`: allocate a right sibling, copy the header, for
leaves re-chain `prev_leaf`/`next_leaf` (including the successor's
back-pointer), move the upper half (`get_min_size() = order / 2` entries
stay, per the spec: the header with these accessors is not in `src/`), and
for internal nodes reparent the migrated children (`maintain_child`). -/
def splitT (order : Nat) (t : IxTree) (nodePage : Int) : IxTree × Int :=
  let newPage := t.nextAlloc
  let t1 : IxTree := { t with nextAlloc := t.nextAlloc + 1
                              pages := setPage t.pages newPage zeroNode }
  match t1.pages nodePage with
  | none => (t1, newPage)
  | some node =>
    let splitPoint := order / 2
    let base := { zeroNode with isLeaf := node.isLeaf, parent := node.parent }
    if node.isLeaf then
      let newNode := { base with prevLeaf := nodePage
                                 nextLeaf := node.nextLeaf
                                 keys := node.keys.drop splitPoint
                                 rids := node.rids.drop splitPoint }
      let node2 := { node with nextLeaf := newPage
                               keys := node.keys.take splitPoint
                               rids := node.rids.take splitPoint }
      let t2 := { t1 with
        pages := setPage (setPage t1.pages nodePage node2) newPage newNode }
      let t3 := match t2.pages newNode.nextLeaf with
        | some nxt =>
          let nxt2 := { nxt with prevLeaf := newPage }
          { t2 with pages := setPage t2.pages newNode.nextLeaf nxt2 }
        | none => t2
      (t3, newPage)
    else
      let newNode := { base with keys := node.keys.drop splitPoint
                                 rids := node.rids.drop splitPoint }
      let node2 := { node with keys := node.keys.take splitPoint
                               rids := node.rids.take splitPoint }
      let t2 := { t1 with
        pages := setPage (setPage t1.pages nodePage node2) newPage newNode }
      let t3 := newNode.rids.foldl (fun acc r =>
          match acc.pages r.pageNo with
          | some child =>
            { acc with pages := setPage acc.pages r.pageNo { child with parent := newPage } }
          | none => acc) t2
      (t3, newPage)

/-- `IxIndexHandle::insert_into_parent`: a split root gets a fresh root
holding (old.first-key → old, split-key → new); otherwise the split key is
inserted right after the old child's slot, recursing when the parent fills
(`is_full` is `num_key == btree_order`, from the spec). -/
def insertIntoParent (order : Nat) : Nat → IxTree → Int → Int → Int → IxTree
  | 0, t, _, _, _ => t
  | fuel + 1, t, oldPage, key, newPage =>
    match t.pages oldPage, t.pages newPage with
    | some old, some newNode =>
      if old.parent = -1 then
        let rootPage := t.nextAlloc
        let t1 : IxTree := { t with nextAlloc := t.nextAlloc + 1
                                    pages := setPage t.pages rootPage zeroNode }
        let root := { zeroNode with parent := old.parent
                                    keys := [old.keys.getD 0 0, key]
                                    rids := [⟨oldPage, 0⟩, ⟨newPage, 0⟩] }
        { t1 with rootPage := rootPage
                  pages := setPage (setPage (setPage t1.pages rootPage root)
                    oldPage { old with parent := rootPage })
                    newPage { newNode with parent := rootPage } }
      else
        match t.pages old.parent with
        | some par =>
          let rank := findChild par oldPage
          let par2 := insertPair par (rank + 1) key ⟨newPage, 0⟩
          let t1 : IxTree := { t with pages := setPage t.pages old.parent par2 }
          if par2.keys.length = order then
            let res := splitT order t1 old.parent
            let skey := match res.1.pages res.2 with
              | some np => np.keys.getD 0 0
              | none => 0
            insertIntoParent order fuel res.1 old.parent skey res.2
          else t1
        | none => t
    | _, _ => t

/-- The empty-tree branch of `insert_entry`: create a new leaf root. -/
def createLeafRoot (t : IxTree) : IxTree :=
  { t with nextAlloc := t.nextAlloc + 1
           rootPage := t.nextAlloc
           pages := setPage t.pages t.nextAlloc
             { zeroNode with isLeaf := true, parent := -1 } }

/-- `IxIndexHandle::insert_entry`: create a root if the tree is empty,
descend to the host leaf, insert, fix ancestor first-keys, split when the
leaf reaches `order` entries (updating `last_leaf` when the sibling chains
to the sentinel page 1), and return the page number of the host leaf
handle. -/
def insertEntry (order fuel : Nat) (t : IxTree) (key : Int) (rid : Rid) :
    IxTree × Int :=
  let t0 := if t.rootPage = -1 then createLeafRoot t else t
  match findLeafPage t0.pages key fuel t0.rootPage with
  | none => (t0, -1)
  | some (leafPage, leaf) =>
    let leaf2 := nodeInsert leaf key rid
    let t1 := { t0 with pages := setPage t0.pages leafPage leaf2 }
    let t2 := maintainParent fuel t1 leafPage
    if leaf2.keys.length = order then
      let res := splitT order t2 leafPage
      let skey := match res.1.pages res.2 with
        | some np => np.keys.getD 0 0
        | none => 0
      let t4 := insertIntoParent order fuel res.1 leafPage skey res.2
      let t5 := match t4.pages res.2 with
        | some nn => if nn.nextLeaf = 1 then { t4 with lastLeaf := res.2 } else t4
        | none => t4
      (t5, leafPage)
    else (t2, leafPage)

/-- The lower-bound loop stays inside its interval. -/
theorem lbLoop_bounds (keys : List Int) (target : Int) :
    ∀ fuel left rpo : Nat, left ≤ rpo →
      left ≤ lbLoop keys target fuel left rpo ∧
      lbLoop keys target fuel left rpo ≤ rpo := by
  intro fuel
  induction fuel with
  | zero => intro left rpo h; exact ⟨le_refl _, h⟩
  | succ n ih =>
    intro left rpo h
    unfold lbLoop
    dsimp only
    split_ifs with h1 h2
    · have hmid : left ≤ (left + rpo - 1) / 2 + 1 ∧ (left + rpo - 1) / 2 + 1 ≤ rpo := by
        omega
      obtain ⟨ha, hb⟩ := ih ((left + rpo - 1) / 2 + 1) rpo hmid.2
      exact ⟨le_trans (by omega) ha, hb⟩
    · have hmid : (left + rpo - 1) / 2 ≤ rpo := by omega
      have hl : left ≤ (left + rpo - 1) / 2 := by omega
      obtain ⟨ha, hb⟩ := ih left ((left + rpo - 1) / 2) hl
      exact ⟨ha, le_trans hb hmid⟩
    · exact ⟨le_refl _, h⟩

/-- `lower_bound` returns a position within [0, num_key]. -/
theorem nodeLowerBound_le (n : IxNode) (target : Int) :
    nodeLowerBound n target ≤ n.keys.length :=
  (lbLoop_bounds n.keys target (n.keys.length + 1) 0 n.keys.length
    (Nat.zero_le _)).2

/-- After `IxNodeHandle::insert`, the key is in the node (it was either
inserted at the lower bound or already present there). -/
theorem nodeInsert_mem (n : IxNode) (key : Int) (rid : Rid) :
    key ∈ (nodeInsert n key rid).keys := by
  unfold nodeInsert
  dsimp only
  split_ifs with h1
  · exact (List.mem_insertIdx (nodeLowerBound_le n key)).2 (Or.inl rfl)
  · push_neg at h1
    obtain ⟨hlt, heq⟩ := h1
    rw [← heq, List.getD_eq_getElem _ _ hlt]
    exact List.getElem_mem hlt

/-- `find_leaf_page` returns a page that is actually in the file with that
content. -/
theorem findLeafPage_pages {pages : Int → Option IxNode} {key : Int} :
    ∀ {fuel : Nat} {cur leafPage : Int} {leaf : IxNode},
      findLeafPage pages key fuel cur = some (leafPage, leaf) →
      pages leafPage = some leaf := by
  intro fuel
  induction fuel with
  | zero => intro cur leafPage leaf h; cases h
  | succ n ih =>
    intro cur leafPage leaf h
    unfold findLeafPage at h
    cases hp : pages cur with
    | none => rw [hp] at h; cases h
    | some nd =>
      rw [hp] at h
      dsimp only at h
      split_ifs at h with hleaf
      · rcases h with ⟨rfl, rfl⟩
        · exact hp
      · exact ih h

/-- Storing a node whose parent pointer matches the node it replaces keeps
the no-parent-points-at-`p` property. -/
theorem setPage_parent_preserved (pages : Int → Option IxNode) (no : Int)
    (n2 par : IxNode) (p : Int)
    (hpar : pages no = some par) (hpp : n2.parent = par.parent)
    (hnp : ∀ q m, pages q = some m → m.parent ≠ p) :
    ∀ q m, setPage pages no n2 q = some m → m.parent ≠ p := by
  intro q m hq
  unfold setPage at hq
  split_ifs at hq with hqe
  · cases hq
    rw [hpp]
    exact hnp no par hpar
  · exact hnp q m hq

/-- `maintain_parent` never touches a page that is nobody's parent (in
particular the leaf it starts from, in a well-formed tree). -/
theorem maintainParent_pages_ne {p : Int} :
    ∀ {fuel : Nat} {t : IxTree} {start : Int},
      (∀ q m, t.pages q = some m → m.parent ≠ p) →
      (maintainParent fuel t start).pages p = t.pages p := by
  intro fuel
  induction fuel with
  | zero => intro t start hnp; rfl
  | succ n ih =>
    intro t start hnp
    unfold maintainParent
    cases hc : t.pages start with
    | none => rfl
    | some cur =>
      dsimp only
      by_cases h1 : cur.parent = -1
      · rw [if_pos h1]
      · rw [if_neg h1]
        cases hpp : t.pages cur.parent with
        | none => rfl
        | some par =>
          dsimp only
          by_cases h3 : par.keys.getD (findChild par start) 0 = cur.keys.getD 0 0
          · rw [if_pos h3]
          · rw [if_neg h3]
            have hne : cur.parent ≠ p := hnp start cur hc
            rw [ih (setPage_parent_preserved t.pages cur.parent
              { par with keys := par.keys.set (findChild par start) (cur.keys.getD 0 0) }
              par p hpp rfl hnp)]
            show setPage t.pages cur.parent _ p = t.pages p
            unfold setPage
            rw [if_neg (fun he => hne he.symm)]

/-- A leaf-only node used as the page-1 sentinel (`IX_LEAF_HEADER_PAGE`). -/
def c9sentinel : IxNode :=
  { isLeaf := true, keys := [], rids := [], parent := -1, prevLeaf := 2, nextLeaf := 2 }

/-- A full-but-one root leaf: keys 10, 20, 30 with btree order 4. -/
def c9root : IxNode :=
  { isLeaf := true, keys := [10, 20, 30], rids := [⟨0, 0⟩, ⟨0, 1⟩, ⟨0, 2⟩],
    parent := -1, prevLeaf := 1, nextLeaf := 1 }

/-- A one-leaf tree (plus the sentinel leaf-list head at page 1). -/
def c9tree : IxTree :=
  ⟨2, 2, 3, fun i => if i = 1 then some c9sentinel else if i = 2 then some c9root else none⟩

/-- `IxNodeHandle::insert` never changes the parent pointer. -/
theorem nodeInsert_parent (n : IxNode) (key : Int) (rid : Rid) :
    (nodeInsert n key rid).parent = n.parent := by
  unfold nodeInsert
  dsimp only
  split_ifs <;> rfl

/-- C9 counterexample: inserting key 40 into the order-4 leaf [10,20,30]
splits the leaf; `insert_entry` returns page 2 (the original leaf), but
after the split page 2 holds only [10,20] and the new key 40 lives in the
new sibling page 3, so the returned page is NOT the leaf containing the
key. -/
theorem C9_split_loses_returned_key :
    (insertEntry 4 10 c9tree 40 ⟨0, 3⟩).2 = 2 ∧
    (insertEntry 4 10 c9tree 40 ⟨0, 3⟩).1.pages 2 =
      some ⟨true, [10, 20], [⟨0, 0⟩, ⟨0, 1⟩], 4, 1, 3⟩ ∧
    (insertEntry 4 10 c9tree 40 ⟨0, 3⟩).1.pages 3 =
      some ⟨true, [30, 40], [⟨0, 2⟩, ⟨0, 3⟩], 4, 2, 1⟩ := by
  decide

/-- C9 (amended): on a non-empty tree, `insert_entry` returns the page
number of the leaf the descent found (the host leaf the key was inserted
into before any split); when the insertion does not fill the leaf to
`btree_order`, that page still contains the key afterwards. -/
theorem C9_insert_entry_return (order fuel : Nat) (t : IxTree) (key : Int)
    (rid : Rid) (leafPage : Int) (leaf : IxNode)
    (hroot : t.rootPage ≠ -1)
    (hfind : findLeafPage t.pages key fuel t.rootPage = some (leafPage, leaf))
    (hnp : ∀ q n, t.pages q = some n → n.parent ≠ leafPage)
    (hnosplit : (nodeInsert leaf key rid).keys.length ≠ order) :
    (insertEntry order fuel t key rid).2 = leafPage ∧
    ∃ n, (insertEntry order fuel t key rid).1.pages leafPage = some n ∧
      key ∈ n.keys := by
  unfold insertEntry
  simp only [if_neg hroot, hfind]
  rw [if_neg hnosplit]
  have hnp1 : ∀ q m,
      ({ t with pages := setPage t.pages leafPage (nodeInsert leaf key rid) } : IxTree).pages q
        = some m → m.parent ≠ leafPage :=
    setPage_parent_preserved t.pages leafPage (nodeInsert leaf key rid) leaf leafPage
      (findLeafPage_pages hfind) (nodeInsert_parent leaf key rid) hnp
  refine ⟨rfl, nodeInsert leaf key rid,
    (maintainParent_pages_ne hnp1).trans ?_, nodeInsert_mem leaf key rid⟩
  show setPage t.pages leafPage (nodeInsert leaf key rid) leafPage = _
  unfold setPage
  rw [if_pos rfl]

/-- A two-key root leaf for the no-split scenario. -/
def w9root : IxNode :=
  { isLeaf := true, keys := [10, 20], rids := [⟨0, 0⟩, ⟨0, 1⟩],
    parent := -1, prevLeaf := 1, nextLeaf := 1 }

/-- A one-leaf tree whose leaf has room for one more key. -/
def w9tree : IxTree :=
  ⟨2, 2, 3, fun i => if i = 1 then some c9sentinel else if i = 2 then some w9root else none⟩

/-- Witness for C9: inserting key 15 into the two-key leaf does not fill
it; the returned page 2 then does contain the key. -/
theorem C9_insert_entry_return_witness :
    (insertEntry 4 5 w9tree 15 ⟨0, 2⟩).2 = 2 ∧
    ∃ n, (insertEntry 4 5 w9tree 15 ⟨0, 2⟩).1.pages 2 = some n ∧
      (15 : Int) ∈ n.keys :=
  C9_insert_entry_return 4 5 w9tree 15 ⟨0, 2⟩ 2 w9root
    (by decide)
    (by decide)
    (by
      intro q n hq
      unfold w9tree at hq
      dsimp only at hq
      by_cases h1 : q = 1
      · rw [if_pos h1] at hq
        cases hq
        decide
      · rw [if_neg h1] at hq
        by_cases h2 : q = 2
        · rw [if_pos h2] at hq
          cases hq
          decide
        · rw [if_neg h2] at hq
          cases hq)
    (by decide)
